import Mathlib

/-!
Verification of the tic-tac-toe engine of the Pakistan-weather-app
repository (`src/weather_app/tic_tac_toe.py`, class `TicTacToe`).

The board is a Python list of 9 strings, each cell `""`, `"X"` or `"O"`;
we embed it as `List String`.  Scores in the search are Python floats that
are either integers or `float('-inf')` / `float('inf')`; we embed the
subset actually used as the inductive type `Score`.  The imperative
mutate-then-retract discipline of `get_best_move` / `minimax` is embedded
by threading the board explicitly: every function that mutates the Python
board returns the final board alongside its result, so that restoration
of the board is a provable property rather than an assumption.  Since the
Python recursion has no structural measure visible to Lean before the
restoration property is proved, `minimax` takes an explicit fuel
parameter; fuel-irrelevance (any fuel exceeding the number of empty cells
gives the same answer) is proved below and corresponds to termination of
the unbounded Python recursion.
-/

namespace TicTacToe

/-- A board: the Python `self.board`, a list of 9 strings. -/
abbrev Board := List String

/-- Read cell `i` of the board (Python `self.board[i]`; all boards the
program builds have length 9, so the default is never consulted). -/
def cell (b : Board) (i : Nat) : String := b.getD i "?"

/-- The initial board of `__init__` / `reset`: `['' for _ in range(9)]`. -/
def reset : Board := List.replicate 9 ""

/-- Python `make_move(position, player)`: succeeds iff `0 <= position < 9` and
the target cell is the empty string; on success writes the mark, otherwise
leaves the board unchanged.  Returns (new board, success flag). -/
def make_move (b : Board) (position : Int) (player : String) : Board × Bool :=
  if 0 ≤ position ∧ position < 9 ∧ cell b position.toNat = "" then
    (b.set position.toNat player, true)
  else
    (b, false)

/-- Python `get_available_moves`: `[i for i in range(9) if self.board[i] == '']`. -/
def get_available_moves (b : Board) : List Nat :=
  (List.range 9).filter (fun i => cell b i == "")

/-- The eight winning lines, in the scan order of the source:
three rows, three columns, two diagonals. -/
def winning_combinations : List (Nat × Nat × Nat) :=
  [(0, 1, 2), (3, 4, 5), (6, 7, 8),
   (0, 3, 6), (1, 4, 7), (2, 5, 8),
   (0, 4, 8), (2, 4, 6)]

/-- Python `check_winner`: returns the mark of the first winning line whose three
cells are equal and non-empty, `none` if no line is won. -/
def check_winner (b : Board) : Option String :=
  (winning_combinations.find? fun c =>
      (cell b c.1 == cell b c.2.1) && (cell b c.2.1 == cell b c.2.2) &&
        (cell b c.1 != ""))
    |>.map (fun c => cell b c.1)

/-- Python `is_board_full`: `'' not in self.board`. -/
def is_board_full (b : Board) : Bool := !(b.contains "")

/-- The scores produced by the search: the integer scores of terminal
states together with the sentinels `float('-inf')` and `float('inf')`. -/
inductive Score where
  | negInf : Score
  | fin : Int → Score
  | posInf : Score
deriving DecidableEq, Repr

/-- Strict comparison of scores (Python `<` on these floats). -/
def Score.blt : Score → Score → Bool
  | .negInf, .negInf => false
  | .negInf, _ => true
  | .fin _, .negInf => false
  | .fin x, .fin y => x < y
  | .fin _, .posInf => true
  | .posInf, _ => false

/-- Non-strict comparison of scores (Python `<=` on these floats). -/
def Score.ble (s t : Score) : Bool := !(t.blt s)

/-- Python `max(score, best_score)`. -/
def Score.max (s t : Score) : Score := if s.blt t then t else s

/-- Python `min(score, best_score)`. -/
def Score.min (s t : Score) : Score := if t.blt s then t else s

/-- Python `minimax(depth, is_maximizing)`, board-threading embedding.  Returns
the score together with the board as the Python method leaves it: each
`for move in self.get_available_moves():` loop is a fold that places the
mark, recurses, retracts the mark, and combines the score with `max`
(maximizing) or `min` (minimizing), starting from `float('-inf')` /
`float('inf')`.  The extra `fuel` argument bounds the recursion depth;
any fuel larger than the number of empty cells is enough (proved below),
matching the unbounded Python recursion.  The fuel-exhausted result is
never reached for such fuel. -/
def minimax : Nat → Board → Nat → Bool → Score × Board
  | 0, b, _, _ => (.fin 0, b)
  | fuel + 1, b, depth, is_maximizing =>
    let winner := check_winner b
    if winner == some "O" then (.fin (10 - (depth : Int)), b)
    else if winner == some "X" then (.fin ((depth : Int) - 10), b)
    else if is_board_full b then (.fin 0, b)
    else if is_maximizing then
      (get_available_moves b).foldl
        (fun acc move =>
          let sb := minimax fuel (acc.2.set move "O") (depth + 1) false
          (Score.max sb.1 acc.1, sb.2.set move ""))
        (Score.negInf, b)
    else
      (get_available_moves b).foldl
        (fun acc move =>
          let sb := minimax fuel (acc.2.set move "X") (depth + 1) true
          (Score.min sb.1 acc.1, sb.2.set move ""))
        (Score.posInf, b)

/-- One step of the `for move in available:` loop of `get_best_move`:
place `'O'`, score the move with `minimax(0, False)`, retract, and keep
the move whenever its score strictly exceeds the best score so far.  The
accumulator is ((best_score, best_move), board). -/
def gbmStep (acc : (Score × Option Nat) × Board) (move : Nat) :
    (Score × Option Nat) × Board :=
  let sb := minimax 9 (acc.2.set move "O") 0 false
  let b2 := sb.2.set move ""
  if acc.1.1.blt sb.1 then ((sb.1, some move), b2) else (acc.1, b2)

/-- Python `get_best_move()`, board-threading embedding.  `pick` models
`random.choice`, consulted only in the defensive fallback branch.  The
fuel `9` given to `minimax` exceeds the number of empty cells of every
board reachable below the root, which suffices (proved below). -/
def get_best_move (pick : List Nat → Nat) (b : Board) : Option Nat × Board :=
  let available := get_available_moves b
  if available.isEmpty then (none, b)
  else
    let rb := available.foldl gbmStep ((.negInf, none), b)
    match rb.1.2 with
    | some m => (some m, rb.2)
    | none => (some (pick available), rb.2)

/-- The derived game outcome, as evaluated by the request handler in the
source: first `check_winner`, then `is_board_full`, else still running. -/
inductive Outcome where
  | inProgress : Outcome
  | win : String → Outcome
  | draw : Outcome
deriving DecidableEq, Repr

/-- Outcome of a board: `Win(mark)` for the first won line, else `Draw`
when the board is full, else `InProgress`. -/
def outcome (b : Board) : Outcome :=
  match check_winner b with
  | some w => .win w
  | none => if is_board_full b then .draw else .inProgress

/-- The opposing mark. -/
def other (p : String) : String := if p = "X" then "O" else "X"

/-- Play the game out with both sides choosing their move with
`get_best_move`, starting from `b` with `p` to move, for at most `n`
plies: while the game is in progress, the chosen move is applied with
`make_move` and the turn passes to the other mark. -/
def playFrom (pick : List Nat → Nat) : Nat → Board → String → Board
  | 0, b, _ => b
  | n + 1, b, p =>
    if outcome b ≠ .inProgress then b
    else
      match (get_best_move pick b).1 with
      | none => b
      | some m => playFrom pick n (make_move b (m : Int) p).1 (other p)

/-- Number of empty cells of a board. -/
def emptyCount (b : Board) : Nat := b.count ""

/-- Declarative reading of the spec: line `c` wins for mark `m` iff all
three of its cells hold `m` and none is empty. -/
def LineWonBy (b : Board) (c : Nat × Nat × Nat) (m : String) : Prop :=
  cell b c.1 = m ∧ cell b c.2.1 = m ∧ cell b c.2.2 = m ∧ m ≠ ""

/-- Pure value of the root loop of `get_best_move`: the (best score,
best move) pair computed over the base board. -/
def gbmVal (b : Board) : Score × Option Nat :=
  (get_available_moves b).foldl
    (fun s move =>
      if s.1.blt (minimax 9 (b.set move "O") 0 false).1 then
        ((minimax 9 (b.set move "O") 0 false).1, some move)
      else s)
    (Score.negInf, none)

/-- The score `get_best_move` attaches to a candidate move. -/
def rootScore (b : Board) (m : Nat) : Score :=
  (minimax 9 (b.set m "O") 0 false).1

/-- Bit mask of one winning line. -/
def maskOf (c : Nat × Nat × Nat) : Nat :=
  (1 <<< c.1) ||| (1 <<< c.2.1) ||| (1 <<< c.2.2)

/-- The eight line masks, in the scan order of `winning_combinations`. -/
def lineMasks : List Nat := [7, 56, 448, 73, 146, 292, 273, 84]

/-- Bitboard winner scan: `0` no winner, `1` the `"X"` mask wins, `2`
the `"O"` mask wins; first line in scan order decides, as in
`check_winner`. -/
def fcheck_winner (x o : Nat) : Nat :=
  match lineMasks.find? (fun L => (x &&& L == L) || (o &&& L == L)) with
  | some L => if x &&& L == L then 1 else 2
  | none => 0

/-- Bitboard version of `get_available_moves`. -/
def fmoves (x o : Nat) : List Nat :=
  (List.range 9).filter (fun i => (x ||| o) >>> i &&& 1 == 0)

/-- Decode a pair of masks to a string board (the simulation relation
with the source model: a board is related to `(x, o)` iff it equals
`fencode x o`). -/
def fencode (x o : Nat) : Board :=
  (List.range 9).map
    (fun i => if x.testBit i then "X" else if o.testBit i then "O" else "")

/-- Sound one-sided verifier for `minimax ... ≥ v`: at a node of the
maximizing player some child must reach the bound, at a node of the
minimizing player all children must; terminal scores are compared
directly; the fuel-exhausted case compares with the fuel-exhausted
`minimax` score `0`. -/
def fge : Nat → Nat → Nat → Nat → Bool → Int → Bool
  | 0, _, _, _, _, v => v ≤ 0
  | fuel + 1, x, o, d, mx, v =>
    let w := fcheck_winner x o
    if w == 2 then v ≤ 10 - (d : Int)
    else if w == 1 then v ≤ (d : Int) - 10
    else if (x ||| o) == 511 then v ≤ 0
    else if mx then
      (fmoves x o).any (fun m => fge fuel x (o ||| (1 <<< m)) (d + 1) false v)
    else
      (fmoves x o).all (fun m => fge fuel (x ||| (1 <<< m)) o (d + 1) true v)

/-- Sound one-sided verifier for `minimax ... ≤ v`, dual to `fge`. -/
def fle : Nat → Nat → Nat → Nat → Bool → Int → Bool
  | 0, _, _, _, _, v => 0 ≤ v
  | fuel + 1, x, o, d, mx, v =>
    let w := fcheck_winner x o
    if w == 2 then 10 - (d : Int) ≤ v
    else if w == 1 then (d : Int) - 10 ≤ v
    else if (x ||| o) == 511 then 0 ≤ v
    else if mx then
      (fmoves x o).all (fun m => fle fuel x (o ||| (1 <<< m)) (d + 1) false v)
    else
      (fmoves x o).any (fun m => fle fuel (x ||| (1 <<< m)) o (d + 1) true v)



/-- Board of the optimal-play playout after 1 plies. -/
def bd1 : Board := ["X", "", "", "", "", "", "", "", ""]

/-- Board of the optimal-play playout after 2 plies. -/
def bd2 : Board := ["X", "", "", "", "O", "", "", "", ""]

/-- Board of the optimal-play playout after 3 plies. -/
def bd3 : Board := ["X", "X", "", "", "O", "", "", "", ""]

/-- Board of the optimal-play playout after 4 plies. -/
def bd4 : Board := ["X", "X", "O", "", "O", "", "", "", ""]

/-- Board of the optimal-play playout after 5 plies. -/
def bd5 : Board := ["X", "X", "O", "", "O", "", "X", "", ""]

/-- Board of the optimal-play playout after 6 plies. -/
def bd6 : Board := ["X", "X", "O", "O", "O", "", "X", "", ""]

/-- Board of the optimal-play playout after 7 plies. -/
def bd7 : Board := ["X", "X", "O", "O", "O", "X", "X", "", ""]

/-- Board of the optimal-play playout after 8 plies. -/
def bd8 : Board := ["X", "X", "O", "O", "O", "X", "X", "O", ""]

/-- Final board of the optimal-play playout (a drawn full board). -/
def bd9 : Board := ["X", "X", "O", "O", "O", "X", "X", "O", "X"]

/-! Basic lemmas about cells. -/

/-- A cell that reads as empty is in range (the out-of-range default is
`"?"`). -/
lemma lt_length_of_cell_empty {b : Board} {i : Nat} (h : cell b i = "") :
    i < b.length := by
  by_contra hlt
  rw [cell, List.getD_eq_default _ _ (Nat.le_of_not_lt hlt)] at h
  exact absurd h (by decide)

/-- Writing the empty string into an already-empty cell leaves the board
unchanged. -/
lemma set_cell_empty {b : Board} {i : Nat} (h : cell b i = "") :
    b.set i "" = b := by
  induction b generalizing i with
  | nil => simp
  | cons hd tl ih =>
    cases i with
    | zero =>
      have : hd = "" := h
      simp [this]
    | succ j =>
      have : cell tl j = "" := h
      simp [ih this]

/-- Reading a cell after writing another one. -/
lemma cell_set_ne {b : Board} {i j : Nat} (h : i ≠ j) (v : String) :
    cell (b.set i v) j = cell b j := by
  simp [cell, List.getD_eq_getElem?_getD, List.getElem?_set_ne h]

/-- Reading the cell just written, when it is in range. -/
lemma cell_set_self {b : Board} {i : Nat} (h : i < b.length) (v : String) :
    cell (b.set i v) i = v := by
  simp [cell, List.getD_eq_getElem?_getD, List.getElem?_set_self h]

/-- Membership in `get_available_moves` is exactly emptiness of an
in-range cell. -/
lemma mem_get_available_moves {b : Board} {i : Nat} :
    i ∈ get_available_moves b ↔ i < 9 ∧ cell b i = "" := by
  simp [get_available_moves, List.mem_filter, List.mem_range, and_comm]

/-- The Boolean line test of `check_winner` agrees with `LineWonBy`. -/
lemma winnerPred_iff {b : Board} {c : Nat × Nat × Nat} :
    ((cell b c.1 == cell b c.2.1) && (cell b c.2.1 == cell b c.2.2) &&
      (cell b c.1 != "")) = true ↔ ∃ m, LineWonBy b c m := by
  constructor
  · intro h
    simp only [Bool.and_eq_true, beq_iff_eq, bne_iff_ne, ne_eq] at h
    exact ⟨cell b c.1, rfl, h.1.1.symm, (h.1.1.trans h.1.2).symm, h.2⟩
  · rintro ⟨m, h1, h2, h3, h4⟩
    simp only [Bool.and_eq_true, beq_iff_eq, bne_iff_ne, ne_eq]
    exact ⟨⟨h1.trans h2.symm, h2.trans h3.symm⟩, h1 ▸ h4⟩

/-- Characterization of `check_winner = some w`: the scan finds the first
line in `winning_combinations` won by some mark, and that mark is `w`. -/
lemma check_winner_eq_some_iff {b : Board} {w : String} :
    check_winner b = some w ↔
      ∃ c pre post, winning_combinations = pre ++ c :: post ∧
        LineWonBy b c w ∧ ∀ d ∈ pre, ∀ m, ¬ LineWonBy b d m := by
  unfold check_winner
  simp only [Option.map_eq_some', List.find?_eq_some]
  constructor
  · rintro ⟨c, ⟨hp, pre, post, hsplit, hpre⟩, hw⟩
    obtain ⟨m, hm⟩ := winnerPred_iff.mp hp
    have hmw : m = w := by
      rw [← hw]; exact hm.1.symm
    refine ⟨c, pre, post, hsplit, hmw ▸ hm, fun d hd m' hm' => ?_⟩
    have := hpre d hd
    rw [Bool.not_eq_eq_eq_not, Bool.not_true] at this
    exact absurd (winnerPred_iff.mpr ⟨m', hm'⟩) (by simp [this])
  · rintro ⟨c, pre, post, hsplit, hwon, hpre⟩
    refine ⟨c, ⟨winnerPred_iff.mpr ⟨w, hwon⟩, pre, post, hsplit, ?_⟩,
      hwon.1⟩
    intro d hd
    rw [Bool.not_eq_eq_eq_not, Bool.not_true]
    by_contra hne
    have : ((cell b d.1 == cell b d.2.1) && (cell b d.2.1 == cell b d.2.2)
        && (cell b d.1 != "")) = true := by
      revert hne
      cases ((cell b d.1 == cell b d.2.1) && (cell b d.2.1 == cell b d.2.2)
        && (cell b d.1 != "")) <;> simp
    obtain ⟨m, hm⟩ := winnerPred_iff.mp this
    exact hpre d hd m hm

/-- Characterization of `check_winner = none`: no line is won. -/
lemma check_winner_eq_none_iff {b : Board} :
    check_winner b = none ↔
      ∀ c ∈ winning_combinations, ∀ m, ¬ LineWonBy b c m := by
  unfold check_winner
  simp only [Option.map_eq_none', List.find?_eq_none]
  constructor
  · intro h c hc m hm
    exact absurd (winnerPred_iff.mpr ⟨m, hm⟩) (by simpa using h c hc)
  · intro h c hc
    simp only [Bool.not_eq_true]
    by_contra hne
    have : ((cell b c.1 == cell b c.2.1) && (cell b c.2.1 == cell b c.2.2)
        && (cell b c.1 != "")) = true := by
      revert hne
      cases ((cell b c.1 == cell b c.2.1) && (cell b c.2.1 == cell b c.2.2)
        && (cell b c.1 != "")) <;> simp
    obtain ⟨m, hm⟩ := winnerPred_iff.mp this
    exact h c hc m hm

/-- Case analysis of `outcome` in terms of its two ingredients. -/
lemma outcome_win_iff {b : Board} {w : String} :
    outcome b = .win w ↔ check_winner b = some w := by
  unfold outcome
  cases h : check_winner b with
  | none => by_cases hf : is_board_full b <;> simp [hf]
  | some a => simp

lemma outcome_draw_iff {b : Board} :
    outcome b = .draw ↔ check_winner b = none ∧ is_board_full b = true := by
  unfold outcome
  cases h : check_winner b with
  | none => by_cases hf : is_board_full b <;> simp [hf]
  | some a => simp

lemma outcome_inProgress_iff {b : Board} :
    outcome b = .inProgress ↔
      check_winner b = none ∧ is_board_full b = false := by
  unfold outcome
  cases h : check_winner b with
  | none => by_cases hf : is_board_full b <;> simp [hf]
  | some a => simp

/-- On a 9-cell board, fullness says every cell is non-empty. -/
lemma is_board_full_iff {b : Board} (h : b.length = 9) :
    is_board_full b = true ↔ ∀ i, i < 9 → cell b i ≠ "" := by
  rw [is_board_full, Bool.not_eq_eq_eq_not, Bool.not_true,
    ← Bool.not_eq_true,
    show (List.contains b "" = true) ↔ (("" : String) ∈ b) from
      List.elem_iff]
  constructor
  · intro hmem i hi hcell
    have hlt : i < b.length := h ▸ hi
    have hgi : b[i] = "" := by
      have h2 : cell b i = "" := hcell
      simp only [cell, List.getD_eq_getElem?_getD,
        List.getElem?_eq_getElem hlt, Option.getD_some] at h2
      exact h2
    exact hmem (hgi ▸ List.getElem_mem hlt)
  · intro hcells hmem
    obtain ⟨i, hi, hget⟩ := List.mem_iff_getElem.mp hmem
    have hci : cell b i = "" := by
      simp [cell, List.getD_eq_getElem?_getD, List.getElem?_eq_getElem hi,
        hget]
    exact hcells i (h ▸ hi) hci

/-- On a 9-cell board, non-fullness says some cell is empty. -/
lemma is_board_full_eq_false_iff {b : Board} (h : b.length = 9) :
    is_board_full b = false ↔ ∃ i, i < 9 ∧ cell b i = "" := by
  rw [← Bool.not_eq_true, is_board_full_iff h]
  push_neg
  constructor
  · rintro ⟨i, hi, hc⟩
    exact ⟨i, hi, hc⟩
  · rintro ⟨i, hi, hc⟩
    exact ⟨i, hi, hc⟩

/-! Restoration of the board: every fold in the search places a mark,
recurses, and retracts the mark, so the board comes back unchanged and
the accumulated value can be computed over the base board. -/

/-- De-threading of a mutate-recurse-retract fold: if the recursive call
`F` returns its input board unchanged and every visited cell is empty,
the fold returns the base board unchanged and its value is a pure fold
over the base board. -/
lemma foldl_dethread {γ α : Type} (F : Board → γ × Board)
    (hF : ∀ x, (F x).2 = x) (comb : γ → Nat → α → α) (mark : String) :
    ∀ (moves : List Nat) (b : Board) (a : α),
      (∀ m ∈ moves, cell b m = "") →
      moves.foldl (fun acc move =>
          (comb (F (acc.2.set move mark)).1 move acc.1,
           (F (acc.2.set move mark)).2.set move "")) (a, b) =
        (moves.foldl (fun s move => comb (F (b.set move mark)).1 move s) a,
         b) := by
  intro moves
  induction moves with
  | nil => intro b a h; rfl
  | cons m rest ih =>
    intro b a h
    have hm : cell b m = "" := h m (List.mem_cons_self m rest)
    have hrestore : ((F (b.set m mark)).2.set m "") = b := by
      rw [hF, List.set_set, set_cell_empty hm]
    simp only [List.foldl_cons, hrestore]
    exact ih b _ (fun x hx => h x (List.mem_cons_of_mem _ hx))

/-- The search leaves the board exactly as it found it, at every fuel,
depth and for both players. -/
lemma minimax_frame : ∀ (fuel : Nat) (b : Board) (d : Nat) (mx : Bool),
    (minimax fuel b d mx).2 = b := by
  intro fuel
  induction fuel with
  | zero => intro b d mx; rfl
  | succ fuel ih =>
    intro b d mx
    rw [minimax]
    split
    · rfl
    · split
      · rfl
      · split
        · rfl
        · split
          · have := foldl_dethread (fun x => minimax fuel x (d + 1) false)
              (fun x => ih x (d + 1) false)
              (fun v _ s => Score.max v s) "O" (get_available_moves b) b
              Score.negInf
              (fun m hm => (mem_get_available_moves.mp hm).2)
            exact congrArg Prod.snd this
          · have := foldl_dethread (fun x => minimax fuel x (d + 1) true)
              (fun x => ih x (d + 1) true)
              (fun v _ s => Score.min v s) "X" (get_available_moves b) b
              Score.posInf
              (fun m hm => (mem_get_available_moves.mp hm).2)
            exact congrArg Prod.snd this

/-- De-threaded formula for a maximizing step of the search on a
non-terminal board: the score is a pure fold of the children's scores
over the base board, each child evaluated one ply deeper. -/
lemma minimax_succ_max {b : Board} {fuel d : Nat}
    (hO : ¬(check_winner b == some "O") = true)
    (hX : ¬(check_winner b == some "X") = true)
    (hfull : ¬is_board_full b = true) :
    minimax (fuel + 1) b d true =
      ((get_available_moves b).foldl
        (fun s m => Score.max (minimax fuel (b.set m "O") (d + 1) false).1 s)
        Score.negInf, b) := by
  rw [minimax]
  simp only [hO, hX, hfull, if_false, if_true]
  exact foldl_dethread (fun x => minimax fuel x (d + 1) false)
    (fun x => minimax_frame fuel x (d + 1) false)
    (fun v _ s => Score.max v s) "O" (get_available_moves b) b Score.negInf
    (fun m hm => (mem_get_available_moves.mp hm).2)

/-- De-threaded formula for a minimizing step of the search on a
non-terminal board. -/
lemma minimax_succ_min {b : Board} {fuel d : Nat}
    (hO : ¬(check_winner b == some "O") = true)
    (hX : ¬(check_winner b == some "X") = true)
    (hfull : ¬is_board_full b = true) :
    minimax (fuel + 1) b d false =
      ((get_available_moves b).foldl
        (fun s m => Score.min (minimax fuel (b.set m "X") (d + 1) true).1 s)
        Score.posInf, b) := by
  rw [minimax]
  simp only [hO, hX, hfull, if_false, if_true]
  exact foldl_dethread (fun x => minimax fuel x (d + 1) true)
    (fun x => minimax_frame fuel x (d + 1) true)
    (fun v _ s => Score.min v s) "X" (get_available_moves b) b Score.posInf
    (fun m hm => (mem_get_available_moves.mp hm).2)

/-- The step of the root loop, with the branch pushed into the first
component so that the board component is branch-independent. -/
lemma gbmStep_reshape :
    gbmStep = fun acc move =>
      ((if acc.1.1.blt (minimax 9 (acc.2.set move "O") 0 false).1 then
          ((minimax 9 (acc.2.set move "O") 0 false).1, some move)
        else acc.1),
       (minimax 9 (acc.2.set move "O") 0 false).2.set move "") := by
  funext acc move
  rw [gbmStep]
  split <;> rfl

/-- De-threaded formula for the root loop of `get_best_move`: the board
comes back unchanged and (best score, best move) is `gbmVal`. -/
lemma gbm_fold_dethread (b : Board) :
    (get_available_moves b).foldl gbmStep ((Score.negInf, none), b) =
      (gbmVal b, b) := by
  rw [gbmStep_reshape]
  exact foldl_dethread (fun x => minimax 9 x 0 false)
    (fun x => minimax_frame 9 x 0 false)
    (fun v m s => if s.1.blt v then (v, some m) else s) "O"
    (get_available_moves b) b (Score.negInf, none)
    (fun m hm => (mem_get_available_moves.mp hm).2)

/-- Closed form of `get_best_move`: the board is returned unchanged, and
the move is the best move of the root loop, with the defensive fallback
when the loop never records a move. -/
lemma get_best_move_eq (pick : List Nat → Nat) (b : Board) :
    get_best_move pick b =
      ((if (get_available_moves b).isEmpty then none
        else match (gbmVal b).2 with
          | some m => some m
          | none => some (pick (get_available_moves b))), b) := by
  rw [get_best_move]
  by_cases h : (get_available_moves b).isEmpty
  · rw [if_pos h, if_pos h]
  · rw [if_neg h, if_neg h]
    simp only [gbm_fold_dethread]
    cases hv : (gbmVal b).2 <;> simp [hv]

/-- The board after `get_best_move` is the board before it. -/
lemma get_best_move_frame (pick : List Nat → Nat) (b : Board) :
    (get_best_move pick b).2 = b := by
  rw [get_best_move_eq]

/-! Order facts about `Score`, and counting empty cells. -/

lemma Score.blt_trans {x y z : Score} (h1 : x.blt y = true)
    (h2 : y.blt z = true) : x.blt z = true := by
  cases x <;> cases y <;> cases z <;> simp_all [Score.blt]
  all_goals omega

lemma Score.blt_of_not_blt_of_blt {x y s : Score} (h1 : s.blt x = false)
    (h2 : s.blt y = true) : x.blt y = true := by
  cases x <;> cases y <;> cases s <;> simp_all [Score.blt]
  all_goals omega

lemma Score.ble_of_blt {x y : Score} (h : x.blt y = true) :
    x.ble y = true := by
  cases x <;> cases y <;> simp_all [Score.blt, Score.ble]
  all_goals omega

lemma Score.ble_of_not_blt {x y : Score} (h : y.blt x = false) :
    x.ble y = true := by
  simp [Score.ble, h]

lemma Score.blt_irrefl (x : Score) : x.blt x = false := by
  cases x <;> simp [Score.blt]

/-- Setting a non-empty mark into an empty in-range cell removes exactly
one empty cell. -/
lemma emptyCount_set {b : Board} {m : Nat} (hm : cell b m = "")
    {v : String} (hv : v ≠ "") :
    emptyCount (b.set m v) + 1 = emptyCount b := by
  induction b generalizing m with
  | nil => exact absurd (lt_length_of_cell_empty hm) (by simp)
  | cons hd tl ih =>
    cases m with
    | zero =>
      have h0 : hd = "" := hm
      subst h0
      simp [emptyCount, List.count_cons, hv]
    | succ k =>
      have hk : cell tl k = "" := hm
      have := ih hk
      simp only [List.set_cons_succ, emptyCount, List.count_cons] at *
      omega

/-- A board that is not full has at least one empty cell to count. -/
lemma one_le_emptyCount_of_not_full {b : Board}
    (h : is_board_full b = false) : 1 ≤ emptyCount b := by
  rw [is_board_full, Bool.not_eq_false'] at h
  have hm : ("" : String) ∈ b := by
    have h2 := (@List.elem_iff String _ _ ("" : String) b).mp h
    exact h2
  exact List.count_pos_iff.mpr hm

/-- On a 9-cell board, the move list is empty exactly when the board is
full. -/
lemma available_eq_nil_iff {b : Board} (h : b.length = 9) :
    get_available_moves b = [] ↔ is_board_full b = true := by
  rw [List.eq_nil_iff_forall_not_mem, is_board_full_iff h]
  constructor
  · intro hall i hi hc
    exact hall i (mem_get_available_moves.mpr ⟨hi, hc⟩)
  · intro hall i hmem
    obtain ⟨hi, hc⟩ := mem_get_available_moves.mp hmem
    exact hall i hi hc

/-- A fold of `Score.max` over finite scores, seeded below by the first
element, yields a finite score. -/
lemma foldl_max_fin (score : Nat → Score) :
    ∀ (moves : List Nat), moves ≠ [] →
      (∀ m ∈ moves, ∃ z, score m = .fin z) →
      ∃ z, moves.foldl (fun s m => Score.max (score m) s) Score.negInf =
        .fin z := by
  have aux : ∀ (moves : List Nat) (z0 : Int),
      (∀ m ∈ moves, ∃ z, score m = .fin z) →
      ∃ z, moves.foldl (fun s m => Score.max (score m) s) (.fin z0) =
        .fin z := by
    intro moves
    induction moves with
    | nil => intro z0 h; exact ⟨z0, rfl⟩
    | cons m rest ih =>
      intro z0 h
      obtain ⟨zm, hzm⟩ := h m (List.mem_cons_self m rest)
      simp only [List.foldl_cons, hzm]
      have hmax : ∃ z1, Score.max (.fin zm) (.fin z0) = .fin z1 := by
        simp only [Score.max, Score.blt]
        split
        · exact ⟨z0, rfl⟩
        · exact ⟨zm, rfl⟩
      obtain ⟨z1, hz1⟩ := hmax
      rw [hz1]
      exact ih _ (fun x hx => h x (List.mem_cons_of_mem _ hx))
  intro moves hne h
  cases moves with
  | nil => exact absurd rfl hne
  | cons m rest =>
    obtain ⟨zm, hzm⟩ := h m (List.mem_cons_self m rest)
    simp only [List.foldl_cons, hzm]
    have : Score.max (.fin zm) Score.negInf = .fin zm := by
      simp [Score.max, Score.blt]
    rw [this]
    exact aux rest zm (fun x hx => h x (List.mem_cons_of_mem _ hx))

/-- A fold of `Score.min` over finite scores, seeded above by the first
element, yields a finite score. -/
lemma foldl_min_fin (score : Nat → Score) :
    ∀ (moves : List Nat), moves ≠ [] →
      (∀ m ∈ moves, ∃ z, score m = .fin z) →
      ∃ z, moves.foldl (fun s m => Score.min (score m) s) Score.posInf =
        .fin z := by
  have aux : ∀ (moves : List Nat) (z0 : Int),
      (∀ m ∈ moves, ∃ z, score m = .fin z) →
      ∃ z, moves.foldl (fun s m => Score.min (score m) s) (.fin z0) =
        .fin z := by
    intro moves
    induction moves with
    | nil => intro z0 h; exact ⟨z0, rfl⟩
    | cons m rest ih =>
      intro z0 h
      obtain ⟨zm, hzm⟩ := h m (List.mem_cons_self m rest)
      simp only [List.foldl_cons, hzm]
      have hmin : ∃ z1, Score.min (.fin zm) (.fin z0) = .fin z1 := by
        simp only [Score.min, Score.blt]
        split
        · exact ⟨z0, rfl⟩
        · exact ⟨zm, rfl⟩
      obtain ⟨z1, hz1⟩ := hmin
      rw [hz1]
      exact ih _ (fun x hx => h x (List.mem_cons_of_mem _ hx))
  intro moves hne h
  cases moves with
  | nil => exact absurd rfl hne
  | cons m rest =>
    obtain ⟨zm, hzm⟩ := h m (List.mem_cons_self m rest)
    simp only [List.foldl_cons, hzm]
    have : Score.min (.fin zm) Score.posInf = .fin zm := by
      simp [Score.min, Score.blt]
    rw [this]
    exact aux rest zm (fun x hx => h x (List.mem_cons_of_mem _ hx))

/-- At sufficient fuel (more than the number of empty cells) the search
reaches a terminal state at every leaf, so its score is always a finite
integer, never an infinity. -/
lemma minimax_fin : ∀ (fuel : Nat) (b : Board) (d : Nat) (mx : Bool),
    b.length = 9 → emptyCount b < fuel →
    ∃ z, (minimax fuel b d mx).1 = .fin z := by
  intro fuel
  induction fuel with
  | zero =>
    intro b d mx hlen hlt
    exact absurd hlt (Nat.not_lt_zero _)
  | succ fuel ih =>
    intro b d mx hlen hlt
    by_cases hO : (check_winner b == some "O") = true
    · refine ⟨10 - (d : Int), ?_⟩
      rw [minimax]
      simp [hO]
    by_cases hX : (check_winner b == some "X") = true
    · refine ⟨(d : Int) - 10, ?_⟩
      rw [minimax]
      simp [hO, hX]
    by_cases hfull : is_board_full b = true
    · refine ⟨0, ?_⟩
      rw [minimax]
      simp [hO, hX, hfull]
    · have hfull2 : is_board_full b = false := by
        cases hfb : is_board_full b
        · rfl
        · exact absurd hfb hfull
      have hne : get_available_moves b ≠ [] := by
        intro hnil
        rw [available_eq_nil_iff hlen] at hnil
        exact hfull hnil
      have hchild : ∀ v : String, v ≠ "" → ∀ m ∈ get_available_moves b,
          emptyCount (b.set m v) < fuel := by
        intro v hv m hm
        have := emptyCount_set (mem_get_available_moves.mp hm).2 hv
        omega
      cases mx
      · rw [minimax_succ_min hO hX hfull]
        exact foldl_min_fin _ _ hne
          (fun m hm => ih (b.set m "X") (d + 1) true (by simp [hlen])
            (hchild "X" (by decide) m hm))
      · rw [minimax_succ_max hO hX hfull]
        exact foldl_max_fin _ _ hne
          (fun m hm => ih (b.set m "O") (d + 1) false (by simp [hlen])
            (hchild "O" (by decide) m hm))

/-- Pointwise-equal child scores give equal folds. -/
lemma foldl_comb_congr {γ α : Type} (comb : γ → α → α) (f g : Nat → γ) :
    ∀ (moves : List Nat) (a : α), (∀ m ∈ moves, f m = g m) →
      moves.foldl (fun s m => comb (f m) s) a =
        moves.foldl (fun s m => comb (g m) s) a := by
  intro moves
  induction moves with
  | nil => intro a h; rfl
  | cons m rest ih =>
    intro a h
    simp only [List.foldl_cons, h m (List.mem_cons_self m rest)]
    exact ih _ (fun x hx => h x (List.mem_cons_of_mem _ hx))

/-- Fuel-irrelevance: any two fuels exceeding the number of empty cells
give the same search result — the recursion always bottoms out at a
terminal state, each recursive call having strictly fewer empty cells. -/
lemma minimax_fuel_irrel : ∀ (n : Nat) (b : Board) (d : Nat) (mx : Bool)
    (f1 f2 : Nat), b.length = 9 → emptyCount b = n → n < f1 → n < f2 →
    minimax f1 b d mx = minimax f2 b d mx := by
  intro n
  induction n with
  | zero =>
    intro b d mx f1 f2 hlen hc h1 h2
    obtain ⟨k1, rfl⟩ : ∃ k, f1 = k + 1 := ⟨f1 - 1, by omega⟩
    obtain ⟨k2, rfl⟩ : ∃ k, f2 = k + 1 := ⟨f2 - 1, by omega⟩
    have hfull : is_board_full b = true := by
      by_contra hf
      have hf2 : is_board_full b = false := by
        cases hfb : is_board_full b
        · rfl
        · exact absurd hfb hf
      have := one_le_emptyCount_of_not_full hf2
      omega
    by_cases hO : (check_winner b == some "O") = true
    · rw [minimax, minimax]
      simp [hO]
    by_cases hX : (check_winner b == some "X") = true
    · rw [minimax, minimax]
      simp [hO, hX]
    · rw [minimax, minimax]
      simp [hO, hX, hfull]
  | succ n ih =>
    intro b d mx f1 f2 hlen hc h1 h2
    obtain ⟨k1, rfl⟩ : ∃ k, f1 = k + 1 := ⟨f1 - 1, by omega⟩
    obtain ⟨k2, rfl⟩ : ∃ k, f2 = k + 1 := ⟨f2 - 1, by omega⟩
    by_cases hO : (check_winner b == some "O") = true
    · rw [minimax, minimax]
      simp [hO]
    by_cases hX : (check_winner b == some "X") = true
    · rw [minimax, minimax]
      simp [hO, hX]
    by_cases hfull : is_board_full b = true
    · rw [minimax, minimax]
      simp [hO, hX, hfull]
    · have hchild : ∀ v : String, v ≠ "" → ∀ m ∈ get_available_moves b,
          emptyCount (b.set m v) = n := by
        intro v hv m hm
        have := emptyCount_set (mem_get_available_moves.mp hm).2 hv
        omega
      cases mx
      · rw [minimax_succ_min hO hX hfull, minimax_succ_min hO hX hfull]
        refine congrArg (fun z => (z, b)) ?_
        refine foldl_comb_congr Score.min
          (fun m => (minimax k1 (b.set m "X") (d + 1) true).1)
          (fun m => (minimax k2 (b.set m "X") (d + 1) true).1)
          (get_available_moves b) Score.posInf (fun m hm => ?_)
        exact congrArg Prod.fst
          (ih (b.set m "X") (d + 1) true k1 k2 (by simp [hlen])
            (hchild "X" (by decide) m hm) (by omega) (by omega))
      · rw [minimax_succ_max hO hX hfull, minimax_succ_max hO hX hfull]
        refine congrArg (fun z => (z, b)) ?_
        refine foldl_comb_congr Score.max
          (fun m => (minimax k1 (b.set m "O") (d + 1) false).1)
          (fun m => (minimax k2 (b.set m "O") (d + 1) false).1)
          (get_available_moves b) Score.negInf (fun m hm => ?_)
        exact congrArg Prod.fst
          (ih (b.set m "O") (d + 1) false k1 k2 (by simp [hlen])
            (hchild "O" (by decide) m hm) (by omega) (by omega))

/-- Reflexivity of the non-strict score order. -/
lemma Score.ble_refl (x : Score) : x.ble x = true := by
  simp [Score.ble, Score.blt_irrefl]

/-- The move list is sorted strictly ascending. -/
lemma available_sorted (b : Board) :
    List.Pairwise (fun m n => m < n) (get_available_moves b) :=
  List.Pairwise.filter _ (List.pairwise_lt_range 9)

/-- There are at most as many empty cells as cells. -/
lemma emptyCount_le_length (b : Board) : emptyCount b ≤ b.length :=
  List.count_le_length "" b

/-- The root score of an available move on a 9-cell board is finite. -/
lemma rootScore_fin {b : Board} (hlen : b.length = 9) {m : Nat}
    (hm : m ∈ get_available_moves b) : ∃ z, rootScore b m = .fin z := by
  have hcell := (mem_get_available_moves.mp hm).2
  have hcount := @emptyCount_set _ _ hcell "O" (by decide)
  have hle := emptyCount_le_length b
  exact minimax_fin 9 (b.set m "O") 0 false (by simp [hlen]) (by omega)

/-- Behaviour of the strict-improvement fold of `get_best_move`: either
no candidate ever beats the seed score and the accumulator survives, or
the result is the first candidate attaining the maximum: every earlier
candidate scores strictly below it and no later candidate exceeds it. -/
lemma gbm_fold_spec (score : Nat → Score) :
    ∀ (moves : List Nat) (s0 : Score) (o0 : Option Nat),
      (moves.foldl
          (fun s m => if s.1.blt (score m) then (score m, some m) else s)
          (s0, o0) = (s0, o0) ∧
        ∀ m ∈ moves, s0.blt (score m) = false) ∨
      (∃ pre m post, moves = pre ++ m :: post ∧
        moves.foldl
          (fun s m => if s.1.blt (score m) then (score m, some m) else s)
          (s0, o0) = (score m, some m) ∧
        s0.blt (score m) = true ∧
        (∀ p ∈ pre, (score p).blt (score m) = true) ∧
        (∀ q ∈ post, (score m).blt (score q) = false)) := by
  intro moves
  induction moves with
  | nil => intro s0 o0; exact Or.inl ⟨rfl, by simp⟩
  | cons mv rest ih =>
    intro s0 o0
    by_cases c : s0.blt (score mv) = true
    · have hstep : (List.foldl
          (fun s m => if s.1.blt (score m) then (score m, some m) else s)
          (s0, o0) (mv :: rest)) = (List.foldl
          (fun s m => if s.1.blt (score m) then (score m, some m) else s)
          (score mv, some mv) rest) := by
        simp only [List.foldl_cons, c, if_true]
      rcases ih (score mv) (some mv) with ⟨heq, hall⟩ |
        ⟨pre, m, post, hsplit, heq, hbeat, hpre, hpost⟩
      · refine Or.inr ⟨[], mv, rest, rfl, ?_, c, by simp, hall⟩
        rw [hstep, heq]
      · refine Or.inr ⟨mv :: pre, m, post, by simp [hsplit], ?_,
          Score.blt_trans c hbeat, ?_, hpost⟩
        · rw [hstep, heq]
        · intro p hp
          rcases List.mem_cons.mp hp with rfl | hp2
          · exact hbeat
          · exact hpre p hp2
    · have c2 : s0.blt (score mv) = false := by
        cases h : s0.blt (score mv)
        · rfl
        · exact absurd h c
      have hstep : (List.foldl
          (fun s m => if s.1.blt (score m) then (score m, some m) else s)
          (s0, o0) (mv :: rest)) = (List.foldl
          (fun s m => if s.1.blt (score m) then (score m, some m) else s)
          (s0, o0) rest) := by
        simp [List.foldl_cons, c2]
      rcases ih s0 o0 with ⟨heq, hall⟩ |
        ⟨pre, m, post, hsplit, heq, hbeat, hpre, hpost⟩
      · refine Or.inl ⟨?_, ?_⟩
        · rw [hstep, heq]
        · intro x hx
          rcases List.mem_cons.mp hx with rfl | hx2
          · exact c2
          · exact hall x hx2
      · refine Or.inr ⟨mv :: pre, m, post, by simp [hsplit], ?_, hbeat,
          ?_, hpost⟩
        · rw [hstep, heq]
        · intro p hp
          rcases List.mem_cons.mp hp with rfl | hp2
          · exact Score.blt_of_not_blt_of_blt c2 hbeat
          · exact hpre p hp2

/-- On a 9-cell board with at least one available move, the root loop
records the first candidate attaining the maximal root score. -/
lemma gbmVal_argmax {b : Board} (hlen : b.length = 9)
    (hne : get_available_moves b ≠ []) :
    ∃ pre m post, get_available_moves b = pre ++ m :: post ∧
      gbmVal b = (rootScore b m, some m) ∧
      (∀ p ∈ pre, (rootScore b p).blt (rootScore b m) = true) ∧
      (∀ q ∈ post, (rootScore b m).blt (rootScore b q) = false) := by
  have hspec := gbm_fold_spec (rootScore b) (get_available_moves b)
    Score.negInf none
  rcases hspec with ⟨heq, hall⟩ |
    ⟨pre, m, post, hsplit, heq, hbeat, hpre, hpost⟩
  · exfalso
    obtain ⟨m0, hm0⟩ := List.exists_mem_of_ne_nil _ hne
    obtain ⟨z, hz⟩ := rootScore_fin hlen hm0
    have := hall m0 hm0
    rw [hz] at this
    exact absurd this (by simp [Score.blt])
  · exact ⟨pre, m, post, hsplit, heq, hpre, hpost⟩

/-! A bitboard companion model used to certify concrete search values.
The full game tree from the empty board is far too large to evaluate
inside the kernel, so claim C1 is settled through two cheap one-sided
bound verifiers (`fge`, `fle`) operating on a pair of 9-bit masks, and a
proof that they are sound for the string-board `minimax` above. -/

lemma lineMasks_eq : lineMasks = winning_combinations.map maskOf := by
  decide

/-! Bit-level helper lemmas. -/

/-- The emptiness test of `fmoves` is the negated `testBit`. -/
lemma shiftand_eq (y i : Nat) :
    ((y >>> i) &&& 1 == 0) = !(y.testBit i) := by
  rw [Nat.testBit]
  rcases Nat.mod_two_eq_zero_or_one (y >>> i) with h | h <;>
    simp [Nat.and_one_is_mod, Nat.one_and_eq_mod_two, h]

/-- Membership in `fmoves`. -/
lemma mem_fmoves {x o i : Nat} :
    i ∈ fmoves x o ↔ i < 9 ∧ (x ||| o).testBit i = false := by
  simp only [fmoves, List.mem_filter, List.mem_range, shiftand_eq,
    Bool.not_eq_eq_eq_not, Bool.not_true]

/-- Mask inclusion, bitwise. -/
lemma land_eq_right_iff {y M : Nat} :
    y &&& M = M ↔ ∀ i, M.testBit i = true → y.testBit i = true := by
  constructor
  · intro h i hM
    have := congrArg (fun z => z.testBit i) h
    simp only [Nat.testBit_land, hM, Bool.and_true] at this
    exact this
  · intro h
    apply Nat.eq_of_testBit_eq
    intro i
    rw [Nat.testBit_land]
    cases hM : M.testBit i
    · simp
    · simp [h i hM]

/-- Covering one line mask says the three cells of the line are set. -/
lemma mask_cover {y : Nat} {c : Nat × Nat × Nat} :
    ((y &&& maskOf c) == maskOf c) =
      (y.testBit c.1 && y.testBit c.2.1 && y.testBit c.2.2) := by
  rw [Bool.eq_iff_iff, beq_iff_eq, land_eq_right_iff]
  have hmask : ∀ i, (maskOf c).testBit i =
      (decide (c.1 = i) || decide (c.2.1 = i) || decide (c.2.2 = i)) := by
    intro i
    simp [maskOf, Nat.testBit_lor, Nat.one_shiftLeft, Nat.testBit_two_pow]
  constructor
  · intro h
    simp only [Bool.and_eq_true]
    refine ⟨⟨?_, ?_⟩, ?_⟩ <;> apply h <;> simp [hmask]
  · intro h i hi
    rw [hmask] at hi
    simp only [Bool.and_eq_true] at h
    rcases Bool.or_eq_true_iff.mp hi with hi2 | hi3
    · rcases Bool.or_eq_true_iff.mp hi2 with hi4 | hi5
      · exact of_decide_eq_true hi4 ▸ h.1.1
      · exact of_decide_eq_true hi5 ▸ h.1.2
    · exact of_decide_eq_true hi3 ▸ h.2

/-- The winner scan only produces the three codes. -/
lemma fcheck_winner_cases (x o : Nat) :
    fcheck_winner x o = 0 ∨ fcheck_winner x o = 1 ∨
      fcheck_winner x o = 2 := by
  rw [fcheck_winner]
  cases lineMasks.find? (fun L => (x &&& L == L) || (o &&& L == L)) with
  | none => exact Or.inl rfl
  | some L =>
    by_cases h : (x &&& L == L) = true
    · exact Or.inr (Or.inl (by simp [h]))
    · refine Or.inr (Or.inr ?_)
      simp only [h]
      simp at h
      simp [h]

/-! Bridge between the string model and the bitboard model. -/

lemma fencode_length (x o : Nat) : (fencode x o).length = 9 := by
  simp [fencode]

lemma cell_fencode {x o i : Nat} (hi : i < 9) :
    cell (fencode x o) i =
      if x.testBit i then "X" else if o.testBit i then "O" else "" := by
  simp [cell, fencode, List.getD_eq_getElem?_getD, List.getElem?_map,
    List.getElem?_range, hi]

lemma available_fencode (x o : Nat) :
    get_available_moves (fencode x o) = fmoves x o := by
  rw [get_available_moves, fmoves]
  apply List.filter_congr
  intro i hi
  rw [List.mem_range] at hi
  rw [shiftand_eq, cell_fencode hi, Nat.testBit_lor]
  cases hx : x.testBit i <;> cases ho : o.testBit i <;> simp

lemma full_fencode {x o : Nat} (hx : x < 512) (ho : o < 512) :
    is_board_full (fencode x o) = ((x ||| o) == 511) := by
  have hor : x ||| o < 512 := by
    have h9 : (512 : Nat) = 2 ^ 9 := by norm_num
    rw [h9] at hx ho ⊢
    exact Nat.or_lt_two_pow hx ho
  by_cases h : (x ||| o) = 511
  · have hcells : ∀ i, i < 9 → cell (fencode x o) i ≠ "" := by
      intro i hi
      have hbit : (x ||| o).testBit i = true := by
        rw [h, show (511 : Nat) = 2 ^ 9 - 1 from by norm_num,
          Nat.testBit_two_pow_sub_one]
        simpa using hi
      rw [Nat.testBit_lor] at hbit
      rw [cell_fencode hi]
      rcases Bool.or_eq_true_iff.mp hbit with hb | hb
      · simp [hb]
      · cases hxb : x.testBit i <;> simp [hxb, hb]
    rw [(is_board_full_iff (fencode_length x o)).mpr hcells, h]
    decide
  · have hex : ∃ i, i < 9 ∧ (x ||| o).testBit i = false := by
      by_contra hno
      push_neg at hno
      apply h
      apply Nat.eq_of_testBit_eq
      intro i
      by_cases hi : i < 9
      · have := hno i hi
        rw [show (511 : Nat) = 2 ^ 9 - 1 from by norm_num,
          Nat.testBit_two_pow_sub_one]
        cases hb : (x ||| o).testBit i
        · exact absurd hb this
        · simpa using hi
      · rw [show (511 : Nat) = 2 ^ 9 - 1 from by norm_num,
          Nat.testBit_two_pow_sub_one]
        have hge : 2 ^ 9 ≤ 2 ^ i := Nat.pow_le_pow_right (by norm_num)
          (by omega)
        rw [Nat.testBit_lt_two_pow (by omega)]
        simp
        omega
    obtain ⟨i, hi, hbit⟩ := hex
    rw [Nat.testBit_lor] at hbit
    have hxb : x.testBit i = false := by
      cases hb : x.testBit i
      · rfl
      · rw [hb] at hbit
        simp at hbit
    have hob : o.testBit i = false := by
      cases hb : o.testBit i
      · rfl
      · rw [hb] at hbit
        simp at hbit
    have hcell : cell (fencode x o) i = "" := by
      rw [cell_fencode hi, hxb, hob]
      simp
    rw [(is_board_full_eq_false_iff (fencode_length x o)).mpr ⟨i, hi, hcell⟩]
    simp [h]

/-- Placing a mark on an encoded board sets the corresponding bit. -/
lemma set_fencode_X {x o m : Nat} (_hm : m < 9)
    (hbit : (x ||| o).testBit m = false) :
    (fencode x o).set m "X" = fencode (x ||| 1 <<< m) o := by
  have hxm : x.testBit m = false := by
    rw [Nat.testBit_lor] at hbit
    cases hb : x.testBit m
    · rfl
    · rw [hb] at hbit
      simp at hbit
  apply List.ext_getElem
  · simp [fencode]
  · intro j hj1 hj2
    have hj : j < 9 := by
      simpa [fencode] using hj2
    rw [List.getElem_set]
    by_cases hjm : m = j
    · subst hjm
      simp only [if_pos rfl, fencode, List.getElem_map, List.getElem_range]
      rw [Nat.one_shiftLeft, Nat.testBit_lor, Nat.testBit_two_pow_self]
      simp
    · simp only [if_neg hjm, fencode, List.getElem_map, List.getElem_range]
      rw [Nat.one_shiftLeft, Nat.testBit_lor, Nat.testBit_two_pow_of_ne hjm]
      simp

lemma set_fencode_O {x o m : Nat} (_hm : m < 9)
    (hbit : (x ||| o).testBit m = false) :
    (fencode x o).set m "O" = fencode x (o ||| 1 <<< m) := by
  have hxm : x.testBit m = false := by
    rw [Nat.testBit_lor] at hbit
    cases hb : x.testBit m
    · rfl
    · rw [hb] at hbit
      simp at hbit
  apply List.ext_getElem
  · simp [fencode]
  · intro j hj1 hj2
    have hj : j < 9 := by
      simpa [fencode] using hj2
    rw [List.getElem_set]
    by_cases hjm : m = j
    · subst hjm
      simp only [if_pos rfl, fencode, List.getElem_map, List.getElem_range]
      rw [Nat.one_shiftLeft, Nat.testBit_lor, Nat.testBit_two_pow_self, hxm]
      simp
    · simp only [if_neg hjm, fencode, List.getElem_map, List.getElem_range]
      rw [Nat.one_shiftLeft, Nat.testBit_lor, Nat.testBit_two_pow_of_ne hjm]
      simp

/-- Pointwise-equal predicates find the same element. -/
lemma findCongr {α : Type} (p q : α → Bool) :
    ∀ l : List α, (∀ a ∈ l, p a = q a) → l.find? p = l.find? q := by
  intro l
  induction l with
  | nil => intro h; rfl
  | cons a rest ih =>
    intro h
    have ha := h a (List.mem_cons_self a rest)
    by_cases hp : p a = true
    · rw [List.find?_cons_of_pos _ hp, List.find?_cons_of_pos _ (ha ▸ hp)]
    · have hp2 : ¬q a = true := fun hq => hp (ha ▸ hq)
      rw [List.find?_cons_of_neg _ hp, List.find?_cons_of_neg _ hp2]
      exact ih (fun b hb => h b (List.mem_cons_of_mem _ hb))

/-- The string line test on an encoded board equals the mask line test
(disjoint masks). -/
lemma linePred_eq {x o : Nat} (hdisj : x &&& o = 0) {c : Nat × Nat × Nat}
    (h1 : c.1 < 9) (h2 : c.2.1 < 9) (h3 : c.2.2 < 9) :
    ((cell (fencode x o) c.1 == cell (fencode x o) c.2.1) &&
      (cell (fencode x o) c.2.1 == cell (fencode x o) c.2.2) &&
      (cell (fencode x o) c.1 != "")) =
      ((x &&& maskOf c == maskOf c) || (o &&& maskOf c == maskOf c)) := by
  have hd : ∀ i, ¬(x.testBit i = true ∧ o.testBit i = true) := by
    intro i hio
    have := congrArg (fun z => z.testBit i) hdisj
    simp [Nat.testBit_land, hio.1, hio.2] at this
  rw [cell_fencode h1, cell_fencode h2, cell_fencode h3, mask_cover,
    mask_cover]
  have d1 := hd c.1
  have d2 := hd c.2.1
  have d3 := hd c.2.2
  cases hx1 : x.testBit c.1 <;> cases hx2 : x.testBit c.2.1 <;>
    cases hx3 : x.testBit c.2.2 <;> cases ho1 : o.testBit c.1 <;>
    cases ho2 : o.testBit c.2.1 <;> cases ho3 : o.testBit c.2.2 <;>
    simp_all

/-- The winner of an encoded board matches the bitboard winner scan. -/
lemma check_winner_fencode {x o : Nat} (hdisj : x &&& o = 0) :
    check_winner (fencode x o) =
      (match fcheck_winner x o with
       | 1 => some "X"
       | 2 => some "O"
       | _ => none) := by
  have hidx : ∀ c ∈ winning_combinations,
      c.1 < 9 ∧ c.2.1 < 9 ∧ c.2.2 < 9 := by decide
  have hd : ∀ i, ¬(x.testBit i = true ∧ o.testBit i = true) := by
    intro i hio
    have := congrArg (fun z => z.testBit i) hdisj
    simp [Nat.testBit_land, hio.1, hio.2] at this
  rw [check_winner, fcheck_winner, lineMasks_eq, List.find?_map,
    show ((fun L => (x &&& L == L) || (o &&& L == L)) ∘ maskOf) =
      (fun c => (x &&& maskOf c == maskOf c) ||
        (o &&& maskOf c == maskOf c)) from rfl,
    findCongr _ _ winning_combinations (fun c hc => by
      obtain ⟨hc1, hc2, hc3⟩ := hidx c hc
      exact linePred_eq hdisj hc1 hc2 hc3)]
  cases hf : winning_combinations.find?
      (fun c => (x &&& maskOf c == maskOf c) ||
        (o &&& maskOf c == maskOf c)) with
  | none => simp
  | some c =>
    have hc : c ∈ winning_combinations := List.mem_of_find?_eq_some hf
    have hpred := List.find?_some hf
    obtain ⟨hc1, hc2, hc3⟩ := hidx c hc
    by_cases hxcov : (x &&& maskOf c == maskOf c) = true
    · have hx1 : x.testBit c.1 = true := by
        rw [mask_cover] at hxcov
        simp only [Bool.and_eq_true] at hxcov
        exact hxcov.1.1
      simp only [Option.map_some']
      rw [cell_fencode hc1, hx1]
      have hxc : x &&& maskOf c = maskOf c := by
        simpa using hxcov
      simp [hxc]
    · have hocov : (o &&& maskOf c == maskOf c) = true := by
        rcases Bool.or_eq_true_iff.mp hpred with h | h
        · exact absurd h hxcov
        · exact h
      have ho1 : o.testBit c.1 = true := by
        rw [mask_cover] at hocov
        simp only [Bool.and_eq_true] at hocov
        exact hocov.1.1
      have hx1 : x.testBit c.1 = false := by
        cases hb : x.testBit c.1
        · rfl
        · exact absurd ⟨hb, ho1⟩ (hd c.1)
      have hxc : ¬(x &&& maskOf c = maskOf c) := by
        intro heq
        exact hxcov (by simp [heq])
      simp only [Option.map_some']
      rw [cell_fencode hc1, hx1, ho1]
      simp [hxc]

/-! Score bounds for the folds of the search. -/

lemma Score.ble_trans {x y z : Score} (h1 : x.ble y = true)
    (h2 : y.ble z = true) : x.ble z = true := by
  cases x <;> cases y <;> cases z <;> simp_all [Score.blt, Score.ble]
  all_goals omega

lemma Score.ble_fin_iff {a b : Int} :
    Score.ble (.fin a) (.fin b) = true ↔ a ≤ b := by
  simp [Score.ble, Score.blt]

lemma Score.ble_posInf (s : Score) : s.ble .posInf = true := by
  cases s <;> simp [Score.ble, Score.blt]

lemma Score.negInf_ble (s : Score) : Score.ble .negInf s = true := by
  cases s <;> simp [Score.ble, Score.blt]

lemma Score.ble_max_left (u a : Score) : u.ble (Score.max u a) = true := by
  rw [Score.max]
  split
  · exact Score.ble_of_blt (by assumption)
  · exact Score.ble_refl u

lemma Score.ble_max_right (u a : Score) : a.ble (Score.max u a) = true := by
  rw [Score.max]
  split
  · exact Score.ble_refl a
  · exact Score.ble_of_not_blt (by simp_all)

lemma Score.max_le {u a v : Score} (h1 : u.ble v = true)
    (h2 : a.ble v = true) : (Score.max u a).ble v = true := by
  rw [Score.max]
  split
  · exact h2
  · exact h1

lemma Score.min_le_left (u a : Score) : (Score.min u a).ble u = true := by
  rw [Score.min]
  split
  · exact Score.ble_of_blt (by assumption)
  · exact Score.ble_refl u

lemma Score.min_le_right (u a : Score) : (Score.min u a).ble a = true := by
  rw [Score.min]
  split
  · exact Score.ble_refl a
  · exact Score.ble_of_not_blt (by simp_all)

lemma Score.le_min {u a v : Score} (h1 : v.ble u = true)
    (h2 : v.ble a = true) : v.ble (Score.min u a) = true := by
  rw [Score.min]
  split
  · exact h2
  · exact h1

lemma Score.eq_fin_of_ble_ble {v : Int} {s : Score}
    (h1 : Score.ble (.fin v) s = true) (h2 : s.ble (.fin v) = true) :
    s = .fin v := by
  cases s <;> simp_all [Score.ble, Score.blt]
  omega

/-- A fold of `Score.max` only grows its seed. -/
lemma foldl_max_seed_mono (f : Nat → Score) :
    ∀ (moves : List Nat) (a : Score),
      a.ble (moves.foldl (fun s x => Score.max (f x) s) a) = true := by
  intro moves
  induction moves with
  | nil => intro a; exact Score.ble_refl a
  | cons mv rest ih =>
    intro a
    simp only [List.foldl_cons]
    exact Score.ble_trans (Score.ble_max_right (f mv) a)
      (ih (Score.max (f mv) a))

/-- A fold of `Score.max` dominates each of its elements. -/
lemma foldl_max_ge_elem (f : Nat → Score) {moves : List Nat} {m : Nat}
    (hm : m ∈ moves) (a : Score) :
    (f m).ble (moves.foldl (fun s x => Score.max (f x) s) a) = true := by
  obtain ⟨l1, l2, rfl⟩ := List.append_of_mem hm
  rw [List.foldl_append, List.foldl_cons]
  exact Score.ble_trans
    (Score.ble_max_left (f m) (List.foldl (fun s x => Score.max (f x) s) a l1))
    (foldl_max_seed_mono f l2 _)

/-- A fold of `Score.max` stays below any common upper bound. -/
lemma foldl_max_le (f : Nat → Score) {v : Score} :
    ∀ (moves : List Nat) (a : Score), a.ble v = true →
      (∀ m ∈ moves, (f m).ble v = true) →
      (moves.foldl (fun s x => Score.max (f x) s) a).ble v = true := by
  intro moves
  induction moves with
  | nil => intro a ha _; exact ha
  | cons mv rest ih =>
    intro a ha hall
    simp only [List.foldl_cons]
    exact ih _ (Score.max_le (hall mv (List.mem_cons_self mv rest)) ha)
      (fun x hx => hall x (List.mem_cons_of_mem _ hx))

/-- A fold of `Score.min` only shrinks its seed. -/
lemma foldl_min_seed_mono (f : Nat → Score) :
    ∀ (moves : List Nat) (a : Score),
      (moves.foldl (fun s x => Score.min (f x) s) a).ble a = true := by
  intro moves
  induction moves with
  | nil => intro a; exact Score.ble_refl a
  | cons mv rest ih =>
    intro a
    simp only [List.foldl_cons]
    exact Score.ble_trans (ih (Score.min (f mv) a))
      (Score.min_le_right (f mv) a)

/-- A fold of `Score.min` is below each of its elements. -/
lemma foldl_min_le_elem (f : Nat → Score) {moves : List Nat} {m : Nat}
    (hm : m ∈ moves) (a : Score) :
    (moves.foldl (fun s x => Score.min (f x) s) a).ble (f m) = true := by
  obtain ⟨l1, l2, rfl⟩ := List.append_of_mem hm
  rw [List.foldl_append, List.foldl_cons]
  exact Score.ble_trans (foldl_min_seed_mono f l2 _)
    (Score.min_le_left (f m) (List.foldl (fun s x => Score.min (f x) s) a l1))

/-- A fold of `Score.min` stays above any common lower bound. -/
lemma foldl_min_ge (f : Nat → Score) {v : Score} :
    ∀ (moves : List Nat) (a : Score), v.ble a = true →
      (∀ m ∈ moves, v.ble (f m) = true) →
      v.ble (moves.foldl (fun s x => Score.min (f x) s) a) = true := by
  intro moves
  induction moves with
  | nil => intro a ha _; exact ha
  | cons mv rest ih =>
    intro a ha hall
    simp only [List.foldl_cons]
    exact ih _ (Score.le_min (hall mv (List.mem_cons_self mv rest)) ha)
      (fun x hx => hall x (List.mem_cons_of_mem _ hx))

/-! Terminal evaluations of the search. -/

lemma minimax_winner_O {b : Board} {fuel d : Nat} {mx : Bool}
    (h : check_winner b = some "O") :
    minimax (fuel + 1) b d mx = (.fin (10 - (d : Int)), b) := by
  rw [minimax]
  simp [h]

lemma minimax_winner_X {b : Board} {fuel d : Nat} {mx : Bool}
    (h : check_winner b = some "X") :
    minimax (fuel + 1) b d mx = (.fin ((d : Int) - 10), b) := by
  rw [minimax]
  simp [h]

lemma minimax_draw {b : Board} {fuel d : Nat} {mx : Bool}
    (hw : check_winner b = none) (hf : is_board_full b = true) :
    minimax (fuel + 1) b d mx = (.fin 0, b) := by
  rw [minimax]
  simp [hw, hf]

/-! Bit bookkeeping for the children of a search node. -/

lemma child_bound {y m : Nat} (hy : y < 512) (hm : m < 9) :
    y ||| 1 <<< m < 512 := by
  have h9 : (512 : Nat) = 2 ^ 9 := by norm_num
  rw [h9] at hy ⊢
  refine Nat.or_lt_two_pow hy ?_
  rw [Nat.one_shiftLeft]
  exact Nat.pow_lt_pow_right (by norm_num) hm

lemma child_disj_X {x o m : Nat} (hdisj : x &&& o = 0)
    (hbit : (x ||| o).testBit m = false) :
    (x ||| 1 <<< m) &&& o = 0 := by
  have hob : o.testBit m = false := by
    rw [Nat.testBit_lor] at hbit
    cases hb : o.testBit m
    · rfl
    · rw [hb] at hbit
      simp at hbit
  apply Nat.eq_of_testBit_eq
  intro i
  have hxo := congrArg (fun z => z.testBit i) hdisj
  simp only [Nat.testBit_land, Nat.zero_testBit] at hxo
  rw [Nat.testBit_land, Nat.testBit_lor, Nat.zero_testBit,
    Nat.one_shiftLeft]
  by_cases him : i = m
  · subst him
    simp [hob]
  · rw [Nat.testBit_two_pow_of_ne (fun hmi => him hmi.symm)]
    simpa using hxo

lemma child_disj_O {x o m : Nat} (hdisj : x &&& o = 0)
    (hbit : (x ||| o).testBit m = false) :
    x &&& (o ||| 1 <<< m) = 0 := by
  have hxb : x.testBit m = false := by
    rw [Nat.testBit_lor] at hbit
    cases hb : x.testBit m
    · rfl
    · rw [hb] at hbit
      simp at hbit
  apply Nat.eq_of_testBit_eq
  intro i
  have hxo := congrArg (fun z => z.testBit i) hdisj
  simp only [Nat.testBit_land, Nat.zero_testBit] at hxo
  rw [Nat.testBit_land, Nat.testBit_lor, Nat.zero_testBit,
    Nat.one_shiftLeft]
  by_cases him : i = m
  · subst him
    simp [hxb]
  · rw [Nat.testBit_two_pow_of_ne (fun hmi => him hmi.symm)]
    simpa using hxo

/-- Soundness of the lower-bound verifier: whenever `fge` accepts, the
source search on the corresponding string board scores at least `v`. -/
lemma fge_sound : ∀ (fuel x o d : Nat) (mx : Bool) (v : Int),
    x < 512 → o < 512 → x &&& o = 0 →
    fge fuel x o d mx v = true →
    Score.ble (.fin v) ((minimax fuel (fencode x o) d mx).1) = true := by
  intro fuel
  induction fuel with
  | zero =>
    intro x o d mx v _ _ _ hge
    rw [fge] at hge
    rw [minimax]
    exact Score.ble_fin_iff.mpr (of_decide_eq_true hge)
  | succ fuel ih =>
    intro x o d mx v hx ho hdisj hge
    have hw := @check_winner_fencode x o hdisj
    rw [fge] at hge
    rcases fcheck_winner_cases x o with h0 | h1 | h2
    · have hcw : check_winner (fencode x o) = none := by rw [hw, h0]
      by_cases hfull : (x ||| o) = 511
      · have hfb : is_board_full (fencode x o) = true := by
          rw [full_fencode hx ho, hfull]
          rfl
        rw [minimax_draw hcw hfb]
        simp [h0, hfull] at hge
        exact Score.ble_fin_iff.mpr hge
      · have hfb : is_board_full (fencode x o) = false := by
          rw [full_fencode hx ho]
          simp [hfull]
        have hO : ¬(check_winner (fencode x o) == some "O") = true := by
          simp [hcw]
        have hX : ¬(check_winner (fencode x o) == some "X") = true := by
          simp [hcw]
        have hFull : ¬is_board_full (fencode x o) = true := by simp [hfb]
        have hbits : ∀ m ∈ fmoves x o,
            m < 9 ∧ (x ||| o).testBit m = false :=
          fun m hm => mem_fmoves.mp hm
        cases mx
        · simp [h0, hfull] at hge
          rw [minimax_succ_min hO hX hFull, available_fencode,
            foldl_comb_congr Score.min
              (fun m => (minimax fuel ((fencode x o).set m "X") (d + 1)
                true).1)
              (fun m => (minimax fuel (fencode (x ||| 1 <<< m) o) (d + 1)
                true).1)
              (fmoves x o) Score.posInf
              (fun m hm => by
                simp only [set_fencode_X (hbits m hm).1 (hbits m hm).2])]
          refine foldl_min_ge _ _ _ rfl (fun m hm => ?_)
          exact ih (x ||| 1 <<< m) o (d + 1) true v
            (child_bound hx (hbits m hm).1) ho
            (child_disj_X hdisj (hbits m hm).2) (hge m hm)
        · simp [h0, hfull] at hge
          obtain ⟨m, hm, hgm⟩ := hge
          rw [minimax_succ_max hO hX hFull, available_fencode,
            foldl_comb_congr Score.max
              (fun m => (minimax fuel ((fencode x o).set m "O") (d + 1)
                false).1)
              (fun m => (minimax fuel (fencode x (o ||| 1 <<< m)) (d + 1)
                false).1)
              (fmoves x o) Score.negInf
              (fun m hm => by
                simp only [set_fencode_O (hbits m hm).1 (hbits m hm).2])]
          exact Score.ble_trans
            (ih x (o ||| 1 <<< m) (d + 1) false v hx
              (child_bound ho (hbits m hm).1)
              (child_disj_O hdisj (hbits m hm).2) hgm)
            (foldl_max_ge_elem _ hm _)
    · have hcw : check_winner (fencode x o) = some "X" := by rw [hw, h1]
      rw [minimax_winner_X hcw]
      simp [h1] at hge
      exact Score.ble_fin_iff.mpr hge
    · have hcw : check_winner (fencode x o) = some "O" := by rw [hw, h2]
      rw [minimax_winner_O hcw]
      simp [h2] at hge
      exact Score.ble_fin_iff.mpr hge

/-- Soundness of the upper-bound verifier: whenever `fle` accepts, the
source search on the corresponding string board scores at most `v`. -/
lemma fle_sound : ∀ (fuel x o d : Nat) (mx : Bool) (v : Int),
    x < 512 → o < 512 → x &&& o = 0 →
    fle fuel x o d mx v = true →
    Score.ble ((minimax fuel (fencode x o) d mx).1) (.fin v) = true := by
  intro fuel
  induction fuel with
  | zero =>
    intro x o d mx v _ _ _ hle
    rw [fle] at hle
    rw [minimax]
    exact Score.ble_fin_iff.mpr (of_decide_eq_true hle)
  | succ fuel ih =>
    intro x o d mx v hx ho hdisj hle
    have hw := @check_winner_fencode x o hdisj
    rw [fle] at hle
    rcases fcheck_winner_cases x o with h0 | h1 | h2
    · have hcw : check_winner (fencode x o) = none := by rw [hw, h0]
      by_cases hfull : (x ||| o) = 511
      · have hfb : is_board_full (fencode x o) = true := by
          rw [full_fencode hx ho, hfull]
          rfl
        rw [minimax_draw hcw hfb]
        simp [h0, hfull] at hle
        exact Score.ble_fin_iff.mpr hle
      · have hfb : is_board_full (fencode x o) = false := by
          rw [full_fencode hx ho]
          simp [hfull]
        have hO : ¬(check_winner (fencode x o) == some "O") = true := by
          simp [hcw]
        have hX : ¬(check_winner (fencode x o) == some "X") = true := by
          simp [hcw]
        have hFull : ¬is_board_full (fencode x o) = true := by simp [hfb]
        have hbits : ∀ m ∈ fmoves x o,
            m < 9 ∧ (x ||| o).testBit m = false :=
          fun m hm => mem_fmoves.mp hm
        cases mx
        · simp [h0, hfull] at hle
          obtain ⟨m, hm, hlm⟩ := hle
          rw [minimax_succ_min hO hX hFull, available_fencode,
            foldl_comb_congr Score.min
              (fun m => (minimax fuel ((fencode x o).set m "X") (d + 1)
                true).1)
              (fun m => (minimax fuel (fencode (x ||| 1 <<< m) o) (d + 1)
                true).1)
              (fmoves x o) Score.posInf
              (fun m hm => by
                simp only [set_fencode_X (hbits m hm).1 (hbits m hm).2])]
          exact Score.ble_trans (foldl_min_le_elem _ hm _)
            (ih (x ||| 1 <<< m) o (d + 1) true v
              (child_bound hx (hbits m hm).1) ho
              (child_disj_X hdisj (hbits m hm).2) hlm)
        · simp [h0, hfull] at hle
          rw [minimax_succ_max hO hX hFull, available_fencode,
            foldl_comb_congr Score.max
              (fun m => (minimax fuel ((fencode x o).set m "O") (d + 1)
                false).1)
              (fun m => (minimax fuel (fencode x (o ||| 1 <<< m)) (d + 1)
                false).1)
              (fmoves x o) Score.negInf
              (fun m hm => by
                simp only [set_fencode_O (hbits m hm).1 (hbits m hm).2])]
          refine foldl_max_le _ _ _ rfl (fun m hm => ?_)
          exact ih x (o ||| 1 <<< m) (d + 1) false v hx
            (child_bound ho (hbits m hm).1)
            (child_disj_O hdisj (hbits m hm).2) (hle m hm)
    · have hcw : check_winner (fencode x o) = some "X" := by rw [hw, h1]
      rw [minimax_winner_X hcw]
      simp [h1] at hle
      exact Score.ble_fin_iff.mpr (by omega)
    · have hcw : check_winner (fencode x o) = some "O" := by rw [hw, h2]
      rw [minimax_winner_O hcw]
      simp [h2] at hle
      exact Score.ble_fin_iff.mpr (by omega)

/-- Exact value of the source search from accepted bound certificates. -/
lemma minimax_eq_of_bounds {x o d : Nat} {mx : Bool} {v : Int}
    (hx : x < 512) (ho : o < 512) (hdisj : x &&& o = 0) {fuel : Nat}
    (hge : fge fuel x o d mx v = true) (hle : fle fuel x o d mx v = true) :
    (minimax fuel (fencode x o) d mx).1 = .fin v :=
  Score.eq_fin_of_ble_ble (fge_sound fuel x o d mx v hx ho hdisj hge)
    (fle_sound fuel x o d mx v hx ho hdisj hle)

/-! Root scores of every candidate move along the optimal-play playout,
certified through the bound verifiers. -/

lemma rs0m0 : (minimax 9 (reset.set 0 "O") 0 false).1 = Score.fin (0) := by
  rw [show reset.set 0 "O" = fencode 0 1 from by decide]
  exact minimax_eq_of_bounds (by decide) (by decide) (by decide)
    (by decide!) (by decide!)

lemma rs0m1 : (minimax 9 (reset.set 1 "O") 0 false).1 = Score.fin (0) := by
  rw [show reset.set 1 "O" = fencode 0 2 from by decide]
  exact minimax_eq_of_bounds (by decide) (by decide) (by decide)
    (by decide!) (by decide!)

lemma rs0m2 : (minimax 9 (reset.set 2 "O") 0 false).1 = Score.fin (0) := by
  rw [show reset.set 2 "O" = fencode 0 4 from by decide]
  exact minimax_eq_of_bounds (by decide) (by decide) (by decide)
    (by decide!) (by decide!)

lemma rs0m3 : (minimax 9 (reset.set 3 "O") 0 false).1 = Score.fin (0) := by
  rw [show reset.set 3 "O" = fencode 0 8 from by decide]
  exact minimax_eq_of_bounds (by decide) (by decide) (by decide)
    (by decide!) (by decide!)

lemma rs0m4 : (minimax 9 (reset.set 4 "O") 0 false).1 = Score.fin (0) := by
  rw [show reset.set 4 "O" = fencode 0 16 from by decide]
  exact minimax_eq_of_bounds (by decide) (by decide) (by decide)
    (by decide!) (by decide!)

lemma rs0m5 : (minimax 9 (reset.set 5 "O") 0 false).1 = Score.fin (0) := by
  rw [show reset.set 5 "O" = fencode 0 32 from by decide]
  exact minimax_eq_of_bounds (by decide) (by decide) (by decide)
    (by decide!) (by decide!)

lemma rs0m6 : (minimax 9 (reset.set 6 "O") 0 false).1 = Score.fin (0) := by
  rw [show reset.set 6 "O" = fencode 0 64 from by decide]
  exact minimax_eq_of_bounds (by decide) (by decide) (by decide)
    (by decide!) (by decide!)

lemma rs0m7 : (minimax 9 (reset.set 7 "O") 0 false).1 = Score.fin (0) := by
  rw [show reset.set 7 "O" = fencode 0 128 from by decide]
  exact minimax_eq_of_bounds (by decide) (by decide) (by decide)
    (by decide!) (by decide!)

lemma rs0m8 : (minimax 9 (reset.set 8 "O") 0 false).1 = Score.fin (0) := by
  rw [show reset.set 8 "O" = fencode 0 256 from by decide]
  exact minimax_eq_of_bounds (by decide) (by decide) (by decide)
    (by decide!) (by decide!)

/-- The move chosen at ply 0 of the playout. -/
lemma gp0 (pick : List Nat → Nat) :
    (get_best_move pick reset).1 = some 0 := by
  have hval : (gbmVal reset).2 = some 0 := by
    rw [gbmVal, show get_available_moves reset = [0, 1, 2, 3, 4, 5, 6, 7, 8] from by decide]
    simp only [List.foldl_cons, List.foldl_nil, rs0m0, rs0m1, rs0m2, rs0m3, rs0m4, rs0m5, rs0m6, rs0m7, rs0m8]
    decide
  rw [get_best_move_eq]
  simp [show (get_available_moves reset).isEmpty = false from by decide, hval]

lemma rs1m1 : (minimax 9 (bd1.set 1 "O") 0 false).1 = Score.fin (-5) := by
  rw [show bd1.set 1 "O" = fencode 1 2 from by decide]
  exact minimax_eq_of_bounds (by decide) (by decide) (by decide)
    (by decide!) (by decide!)

lemma rs1m2 : (minimax 9 (bd1.set 2 "O") 0 false).1 = Score.fin (-5) := by
  rw [show bd1.set 2 "O" = fencode 1 4 from by decide]
  exact minimax_eq_of_bounds (by decide) (by decide) (by decide)
    (by decide!) (by decide!)

lemma rs1m3 : (minimax 9 (bd1.set 3 "O") 0 false).1 = Score.fin (-5) := by
  rw [show bd1.set 3 "O" = fencode 1 8 from by decide]
  exact minimax_eq_of_bounds (by decide) (by decide) (by decide)
    (by decide!) (by decide!)

lemma rs1m4 : (minimax 9 (bd1.set 4 "O") 0 false).1 = Score.fin (0) := by
  rw [show bd1.set 4 "O" = fencode 1 16 from by decide]
  exact minimax_eq_of_bounds (by decide) (by decide) (by decide)
    (by decide!) (by decide!)

lemma rs1m5 : (minimax 9 (bd1.set 5 "O") 0 false).1 = Score.fin (-5) := by
  rw [show bd1.set 5 "O" = fencode 1 32 from by decide]
  exact minimax_eq_of_bounds (by decide) (by decide) (by decide)
    (by decide!) (by decide!)

lemma rs1m6 : (minimax 9 (bd1.set 6 "O") 0 false).1 = Score.fin (-5) := by
  rw [show bd1.set 6 "O" = fencode 1 64 from by decide]
  exact minimax_eq_of_bounds (by decide) (by decide) (by decide)
    (by decide!) (by decide!)

lemma rs1m7 : (minimax 9 (bd1.set 7 "O") 0 false).1 = Score.fin (-5) := by
  rw [show bd1.set 7 "O" = fencode 1 128 from by decide]
  exact minimax_eq_of_bounds (by decide) (by decide) (by decide)
    (by decide!) (by decide!)

lemma rs1m8 : (minimax 9 (bd1.set 8 "O") 0 false).1 = Score.fin (-5) := by
  rw [show bd1.set 8 "O" = fencode 1 256 from by decide]
  exact minimax_eq_of_bounds (by decide) (by decide) (by decide)
    (by decide!) (by decide!)

/-- The move chosen at ply 1 of the playout. -/
lemma gp1 (pick : List Nat → Nat) :
    (get_best_move pick bd1).1 = some 4 := by
  have hval : (gbmVal bd1).2 = some 4 := by
    rw [gbmVal, show get_available_moves bd1 = [1, 2, 3, 4, 5, 6, 7, 8] from by decide]
    simp only [List.foldl_cons, List.foldl_nil, rs1m1, rs1m2, rs1m3, rs1m4, rs1m5, rs1m6, rs1m7, rs1m8]
    decide
  rw [get_best_move_eq]
  simp [show (get_available_moves bd1).isEmpty = false from by decide, hval]

lemma rs2m1 : (minimax 9 (bd2.set 1 "O") 0 false).1 = Score.fin (0) := by
  rw [show bd2.set 1 "O" = fencode 1 18 from by decide]
  exact minimax_eq_of_bounds (by decide) (by decide) (by decide)
    (by decide!) (by decide!)

lemma rs2m2 : (minimax 9 (bd2.set 2 "O") 0 false).1 = Score.fin (0) := by
  rw [show bd2.set 2 "O" = fencode 1 20 from by decide]
  exact minimax_eq_of_bounds (by decide) (by decide) (by decide)
    (by decide!) (by decide!)

lemma rs2m3 : (minimax 9 (bd2.set 3 "O") 0 false).1 = Score.fin (0) := by
  rw [show bd2.set 3 "O" = fencode 1 24 from by decide]
  exact minimax_eq_of_bounds (by decide) (by decide) (by decide)
    (by decide!) (by decide!)

lemma rs2m5 : (minimax 9 (bd2.set 5 "O") 0 false).1 = Score.fin (0) := by
  rw [show bd2.set 5 "O" = fencode 1 48 from by decide]
  exact minimax_eq_of_bounds (by decide) (by decide) (by decide)
    (by decide!) (by decide!)

lemma rs2m6 : (minimax 9 (bd2.set 6 "O") 0 false).1 = Score.fin (0) := by
  rw [show bd2.set 6 "O" = fencode 1 80 from by decide]
  exact minimax_eq_of_bounds (by decide) (by decide) (by decide)
    (by decide!) (by decide!)

lemma rs2m7 : (minimax 9 (bd2.set 7 "O") 0 false).1 = Score.fin (0) := by
  rw [show bd2.set 7 "O" = fencode 1 144 from by decide]
  exact minimax_eq_of_bounds (by decide) (by decide) (by decide)
    (by decide!) (by decide!)

lemma rs2m8 : (minimax 9 (bd2.set 8 "O") 0 false).1 = Score.fin (0) := by
  rw [show bd2.set 8 "O" = fencode 1 272 from by decide]
  exact minimax_eq_of_bounds (by decide) (by decide) (by decide)
    (by decide!) (by decide!)

/-- The move chosen at ply 2 of the playout. -/
lemma gp2 (pick : List Nat → Nat) :
    (get_best_move pick bd2).1 = some 1 := by
  have hval : (gbmVal bd2).2 = some 1 := by
    rw [gbmVal, show get_available_moves bd2 = [1, 2, 3, 5, 6, 7, 8] from by decide]
    simp only [List.foldl_cons, List.foldl_nil, rs2m1, rs2m2, rs2m3, rs2m5, rs2m6, rs2m7, rs2m8]
    decide
  rw [get_best_move_eq]
  simp [show (get_available_moves bd2).isEmpty = false from by decide, hval]

lemma rs3m2 : (minimax 9 (bd3.set 2 "O") 0 false).1 = Score.fin (0) := by
  rw [show bd3.set 2 "O" = fencode 3 20 from by decide]
  exact minimax_eq_of_bounds (by decide) (by decide) (by decide)
    (by decide!) (by decide!)

lemma rs3m3 : (minimax 9 (bd3.set 3 "O") 0 false).1 = Score.fin (-9) := by
  rw [show bd3.set 3 "O" = fencode 3 24 from by decide]
  exact minimax_eq_of_bounds (by decide) (by decide) (by decide)
    (by decide!) (by decide!)

lemma rs3m5 : (minimax 9 (bd3.set 5 "O") 0 false).1 = Score.fin (-9) := by
  rw [show bd3.set 5 "O" = fencode 3 48 from by decide]
  exact minimax_eq_of_bounds (by decide) (by decide) (by decide)
    (by decide!) (by decide!)

lemma rs3m6 : (minimax 9 (bd3.set 6 "O") 0 false).1 = Score.fin (-9) := by
  rw [show bd3.set 6 "O" = fencode 3 80 from by decide]
  exact minimax_eq_of_bounds (by decide) (by decide) (by decide)
    (by decide!) (by decide!)

lemma rs3m7 : (minimax 9 (bd3.set 7 "O") 0 false).1 = Score.fin (-9) := by
  rw [show bd3.set 7 "O" = fencode 3 144 from by decide]
  exact minimax_eq_of_bounds (by decide) (by decide) (by decide)
    (by decide!) (by decide!)

lemma rs3m8 : (minimax 9 (bd3.set 8 "O") 0 false).1 = Score.fin (-9) := by
  rw [show bd3.set 8 "O" = fencode 3 272 from by decide]
  exact minimax_eq_of_bounds (by decide) (by decide) (by decide)
    (by decide!) (by decide!)

/-- The move chosen at ply 3 of the playout. -/
lemma gp3 (pick : List Nat → Nat) :
    (get_best_move pick bd3).1 = some 2 := by
  have hval : (gbmVal bd3).2 = some 2 := by
    rw [gbmVal, show get_available_moves bd3 = [2, 3, 5, 6, 7, 8] from by decide]
    simp only [List.foldl_cons, List.foldl_nil, rs3m2, rs3m3, rs3m5, rs3m6, rs3m7, rs3m8]
    decide
  rw [get_best_move_eq]
  simp [show (get_available_moves bd3).isEmpty = false from by decide, hval]

lemma rs4m3 : (minimax 9 (bd4.set 3 "O") 0 false).1 = Score.fin (8) := by
  rw [show bd4.set 3 "O" = fencode 3 28 from by decide]
  exact minimax_eq_of_bounds (by decide) (by decide) (by decide)
    (by decide!) (by decide!)

lemma rs4m5 : (minimax 9 (bd4.set 5 "O") 0 false).1 = Score.fin (8) := by
  rw [show bd4.set 5 "O" = fencode 3 52 from by decide]
  exact minimax_eq_of_bounds (by decide) (by decide) (by decide)
    (by decide!) (by decide!)

lemma rs4m6 : (minimax 9 (bd4.set 6 "O") 0 false).1 = Score.fin (10) := by
  rw [show bd4.set 6 "O" = fencode 3 84 from by decide]
  exact minimax_eq_of_bounds (by decide) (by decide) (by decide)
    (by decide!) (by decide!)

lemma rs4m7 : (minimax 9 (bd4.set 7 "O") 0 false).1 = Score.fin (0) := by
  rw [show bd4.set 7 "O" = fencode 3 148 from by decide]
  exact minimax_eq_of_bounds (by decide) (by decide) (by decide)
    (by decide!) (by decide!)

lemma rs4m8 : (minimax 9 (bd4.set 8 "O") 0 false).1 = Score.fin (8) := by
  rw [show bd4.set 8 "O" = fencode 3 276 from by decide]
  exact minimax_eq_of_bounds (by decide) (by decide) (by decide)
    (by decide!) (by decide!)

/-- The move chosen at ply 4 of the playout. -/
lemma gp4 (pick : List Nat → Nat) :
    (get_best_move pick bd4).1 = some 6 := by
  have hval : (gbmVal bd4).2 = some 6 := by
    rw [gbmVal, show get_available_moves bd4 = [3, 5, 6, 7, 8] from by decide]
    simp only [List.foldl_cons, List.foldl_nil, rs4m3, rs4m5, rs4m6, rs4m7, rs4m8]
    decide
  rw [get_best_move_eq]
  simp [show (get_available_moves bd4).isEmpty = false from by decide, hval]

lemma rs5m3 : (minimax 9 (bd5.set 3 "O") 0 false).1 = Score.fin (0) := by
  rw [show bd5.set 3 "O" = fencode 67 28 from by decide]
  exact minimax_eq_of_bounds (by decide) (by decide) (by decide)
    (by decide!) (by decide!)

lemma rs5m5 : (minimax 9 (bd5.set 5 "O") 0 false).1 = Score.fin (-9) := by
  rw [show bd5.set 5 "O" = fencode 67 52 from by decide]
  exact minimax_eq_of_bounds (by decide) (by decide) (by decide)
    (by decide!) (by decide!)

lemma rs5m7 : (minimax 9 (bd5.set 7 "O") 0 false).1 = Score.fin (-9) := by
  rw [show bd5.set 7 "O" = fencode 67 148 from by decide]
  exact minimax_eq_of_bounds (by decide) (by decide) (by decide)
    (by decide!) (by decide!)

lemma rs5m8 : (minimax 9 (bd5.set 8 "O") 0 false).1 = Score.fin (-9) := by
  rw [show bd5.set 8 "O" = fencode 67 276 from by decide]
  exact minimax_eq_of_bounds (by decide) (by decide) (by decide)
    (by decide!) (by decide!)

/-- The move chosen at ply 5 of the playout. -/
lemma gp5 (pick : List Nat → Nat) :
    (get_best_move pick bd5).1 = some 3 := by
  have hval : (gbmVal bd5).2 = some 3 := by
    rw [gbmVal, show get_available_moves bd5 = [3, 5, 7, 8] from by decide]
    simp only [List.foldl_cons, List.foldl_nil, rs5m3, rs5m5, rs5m7, rs5m8]
    decide
  rw [get_best_move_eq]
  simp [show (get_available_moves bd5).isEmpty = false from by decide, hval]

lemma rs6m5 : (minimax 9 (bd6.set 5 "O") 0 false).1 = Score.fin (10) := by
  rw [show bd6.set 5 "O" = fencode 67 60 from by decide]
  exact minimax_eq_of_bounds (by decide) (by decide) (by decide)
    (by decide!) (by decide!)

lemma rs6m7 : (minimax 9 (bd6.set 7 "O") 0 false).1 = Score.fin (0) := by
  rw [show bd6.set 7 "O" = fencode 67 156 from by decide]
  exact minimax_eq_of_bounds (by decide) (by decide) (by decide)
    (by decide!) (by decide!)

lemma rs6m8 : (minimax 9 (bd6.set 8 "O") 0 false).1 = Score.fin (0) := by
  rw [show bd6.set 8 "O" = fencode 67 284 from by decide]
  exact minimax_eq_of_bounds (by decide) (by decide) (by decide)
    (by decide!) (by decide!)

/-- The move chosen at ply 6 of the playout. -/
lemma gp6 (pick : List Nat → Nat) :
    (get_best_move pick bd6).1 = some 5 := by
  have hval : (gbmVal bd6).2 = some 5 := by
    rw [gbmVal, show get_available_moves bd6 = [5, 7, 8] from by decide]
    simp only [List.foldl_cons, List.foldl_nil, rs6m5, rs6m7, rs6m8]
    decide
  rw [get_best_move_eq]
  simp [show (get_available_moves bd6).isEmpty = false from by decide, hval]

lemma rs7m7 : (minimax 9 (bd7.set 7 "O") 0 false).1 = Score.fin (0) := by
  rw [show bd7.set 7 "O" = fencode 99 156 from by decide]
  exact minimax_eq_of_bounds (by decide) (by decide) (by decide)
    (by decide!) (by decide!)

lemma rs7m8 : (minimax 9 (bd7.set 8 "O") 0 false).1 = Score.fin (0) := by
  rw [show bd7.set 8 "O" = fencode 99 284 from by decide]
  exact minimax_eq_of_bounds (by decide) (by decide) (by decide)
    (by decide!) (by decide!)

/-- The move chosen at ply 7 of the playout. -/
lemma gp7 (pick : List Nat → Nat) :
    (get_best_move pick bd7).1 = some 7 := by
  have hval : (gbmVal bd7).2 = some 7 := by
    rw [gbmVal, show get_available_moves bd7 = [7, 8] from by decide]
    simp only [List.foldl_cons, List.foldl_nil, rs7m7, rs7m8]
    decide
  rw [get_best_move_eq]
  simp [show (get_available_moves bd7).isEmpty = false from by decide, hval]

lemma rs8m8 : (minimax 9 (bd8.set 8 "O") 0 false).1 = Score.fin (0) := by
  rw [show bd8.set 8 "O" = fencode 99 412 from by decide]
  exact minimax_eq_of_bounds (by decide) (by decide) (by decide)
    (by decide!) (by decide!)

/-- The move chosen at ply 8 of the playout. -/
lemma gp8 (pick : List Nat → Nat) :
    (get_best_move pick bd8).1 = some 8 := by
  have hval : (gbmVal bd8).2 = some 8 := by
    rw [gbmVal, show get_available_moves bd8 = [8] from by decide]
    simp only [List.foldl_cons, List.foldl_nil, rs8m8]
    decide
  rw [get_best_move_eq]
  simp [show (get_available_moves bd8).isEmpty = false from by decide, hval]

/-- One ply of the playout: on a running board the chosen move is
applied and the turn passes. -/
lemma playFrom_step (pick : List Nat → Nat) (n : Nat) (b b2 : Board)
    (p p2 : String) (m : Nat)
    (ho : outcome b = Outcome.inProgress)
    (hg : (get_best_move pick b).1 = some m)
    (hmv : (make_move b (m : Int) p).1 = b2)
    (hop : other p = p2) :
    playFrom pick (n + 1) b p = playFrom pick n b2 p2 := by
  rw [playFrom, if_neg (by simp [ho]), hg]
  show playFrom pick n (make_move b (m : Int) p).1 (other p) =
    playFrom pick n b2 p2
  rw [hmv, hop]

/-- Once the game is over the playout no longer moves. -/
lemma playFrom_terminal (pick : List Nat → Nat) (p : String) (b : Board)
    (h : outcome b ≠ Outcome.inProgress) :
    ∀ n, playFrom pick n b p = b := by
  intro n
  cases n with
  | zero => rfl
  | succ n =>
    rw [playFrom, if_pos h]

/-- The full playout: from the empty board, with both sides choosing
their move with the search, the game reaches the drawn board `bd9`
(with any ply budget of at least 9). -/
lemma play_result (pick : List Nat → Nat) (k : Nat) :
    playFrom pick (9 + k) reset "X" = bd9 := by
  have e0 : 9 + k = 8 + k + 1 := by omega
  rw [e0, playFrom_step pick (8 + k) reset bd1 "X" "O" 0
    (by decide) (gp0 pick) (by decide) (by decide)]
  have e1 : 8 + k = 7 + k + 1 := by omega
  rw [e1, playFrom_step pick (7 + k) bd1 bd2 "O" "X" 4
    (by decide) (gp1 pick) (by decide) (by decide)]
  have e2 : 7 + k = 6 + k + 1 := by omega
  rw [e2, playFrom_step pick (6 + k) bd2 bd3 "X" "O" 1
    (by decide) (gp2 pick) (by decide) (by decide)]
  have e3 : 6 + k = 5 + k + 1 := by omega
  rw [e3, playFrom_step pick (5 + k) bd3 bd4 "O" "X" 2
    (by decide) (gp3 pick) (by decide) (by decide)]
  have e4 : 5 + k = 4 + k + 1 := by omega
  rw [e4, playFrom_step pick (4 + k) bd4 bd5 "X" "O" 6
    (by decide) (gp4 pick) (by decide) (by decide)]
  have e5 : 4 + k = 3 + k + 1 := by omega
  rw [e5, playFrom_step pick (3 + k) bd5 bd6 "O" "X" 3
    (by decide) (gp5 pick) (by decide) (by decide)]
  have e6 : 3 + k = 2 + k + 1 := by omega
  rw [e6, playFrom_step pick (2 + k) bd6 bd7 "X" "O" 5
    (by decide) (gp6 pick) (by decide) (by decide)]
  have e7 : 2 + k = 1 + k + 1 := by omega
  rw [e7, playFrom_step pick (1 + k) bd7 bd8 "O" "X" 7
    (by decide) (gp7 pick) (by decide) (by decide)]
  have e8 : 1 + k = 0 + k + 1 := by omega
  rw [e8, playFrom_step pick (0 + k) bd8 bd9 "X" "O" 8
    (by decide) (gp8 pick) (by decide) (by decide)]
  have e9 : 0 + k = k := by omega
  rw [e9]
  exact playFrom_terminal pick "O" bd9 (by decide) k

end TicTacToe

open TicTacToe

/-- C4: `make_move(index, mark)` succeeds and writes the mark iff
`0 <= index < 9` and the target cell is empty; in every other case it
returns `false` and leaves the board unchanged.  The behaviour is the
same for every board, in particular for boards whose outcome is already
a win or a draw: there is no terminal-state guard. -/
theorem claim_C4 : ∀ (b : Board) (pos : Int) (mark : String),
    (make_move b pos mark = (b.set pos.toNat mark, true) ↔
      0 ≤ pos ∧ pos < 9 ∧ cell b pos.toNat = "") ∧
    (¬(0 ≤ pos ∧ pos < 9 ∧ cell b pos.toNat = "") →
      make_move b pos mark = (b, false)) := by
  intro b pos mark
  constructor
  · constructor
    · intro h
      by_cases hc : 0 ≤ pos ∧ pos < 9 ∧ cell b pos.toNat = ""
      · exact hc
      · rw [make_move, if_neg hc] at h
        exact absurd (congrArg Prod.snd h) (by simp)
    · intro hc
      rw [make_move, if_pos hc]
  · intro hc
    rw [make_move, if_neg hc]

/-- Witness for C4: a legal move on the empty board succeeds, an
out-of-range index fails without mutation, and a move on a board already
won by `"O"` still succeeds (no terminal guard). -/
theorem claim_C4_witness :
    make_move reset 4 "X" = (reset.set 4 "X", true) ∧
    make_move reset 9 "X" = (reset, false) ∧
    outcome ["O", "O", "O", "", "", "", "", "", ""] = .win "O" ∧
    make_move ["O", "O", "O", "", "", "", "", "", ""] 3 "X" =
      ((["O", "O", "O", "", "", "", "", "", ""] : Board).set 3 "X", true) :=
  ⟨(claim_C4 reset 4 "X").1.mpr (by decide),
   (claim_C4 reset 9 "X").2 (by decide),
   by decide,
   (claim_C4 _ 3 "X").1.mpr (by decide)⟩

/-- C7: `get_available_moves` returns exactly the indices of the empty
cells, in ascending order, and on the board produced by `reset` it
returns all nine indices. -/
theorem claim_C7 : ∀ b : Board,
    (∀ i : Nat, i ∈ get_available_moves b ↔ i < 9 ∧ cell b i = "") ∧
    List.Sorted (fun m n => m < n) (get_available_moves b) ∧
    get_available_moves reset = [0, 1, 2, 3, 4, 5, 6, 7, 8] := by
  intro b
  refine ⟨fun i => mem_get_available_moves, ?_, by decide⟩
  exact List.Pairwise.filter _ (List.pairwise_lt_range 9)

/-- C10: `make_move` does not validate the mark: any string, including
the empty-cell sentinel `""`, is accepted on an empty in-range cell; with
mark `""` it reports success, leaves the board unchanged, and the index
remains available. -/
theorem claim_C10 : ∀ (b : Board) (pos : Int) (m : String),
    0 ≤ pos → pos < 9 → cell b pos.toNat = "" →
    (make_move b pos m).2 = true ∧
    (make_move b pos "").1 = b ∧
    pos.toNat ∈ get_available_moves (make_move b pos "").1 := by
  intro b pos m h0 h9 hc
  have hmm : make_move b pos "" = (b.set pos.toNat "", true) := by
    rw [make_move, if_pos ⟨h0, h9, hc⟩]
  have hb : (make_move b pos "").1 = b := by
    rw [hmm, set_cell_empty hc]
  refine ⟨?_, hb, ?_⟩
  · rw [make_move, if_pos ⟨h0, h9, hc⟩]
  · rw [hb]
    exact mem_get_available_moves.mpr ⟨by omega, hc⟩

/-- Witness for C10: on the empty board, the unvalidated mark `"Z"` is
accepted at cell 0, and the empty-string mark is accepted while leaving
the cell empty and still available. -/
theorem claim_C10_witness :
    (make_move reset 0 "Z").2 = true ∧
    (make_move reset 0 "").1 = reset ∧
    (0 : Int).toNat ∈ get_available_moves (make_move reset 0 "").1 :=
  claim_C10 reset 0 "Z" (by decide) (by decide) (by decide)

/-- C6: the derived outcome scans the 8 lines in source order (rows,
columns, diagonals); a line wins for a mark iff all three cells hold that
mark and none is empty; the first won line determines the winner; with no
won line, a board with no empty cell is a draw and otherwise the game is
in progress — in particular the empty board is in progress. -/
theorem claim_C6 : ∀ b : Board, b.length = 9 →
    ((∀ w, outcome b = .win w ↔
        ∃ c pre post, winning_combinations = pre ++ c :: post ∧
          LineWonBy b c w ∧ ∀ d ∈ pre, ∀ m, ¬ LineWonBy b d m) ∧
     (outcome b = .draw ↔
        (∀ c ∈ winning_combinations, ∀ m, ¬ LineWonBy b c m) ∧
        ∀ i, i < 9 → cell b i ≠ "") ∧
     (outcome b = .inProgress ↔
        (∀ c ∈ winning_combinations, ∀ m, ¬ LineWonBy b c m) ∧
        ∃ i, i < 9 ∧ cell b i = "")) ∧
    outcome reset = .inProgress := by
  intro b h
  refine ⟨⟨fun w => ?_, ?_, ?_⟩, by decide⟩
  · rw [outcome_win_iff, check_winner_eq_some_iff]
  · rw [outcome_draw_iff, check_winner_eq_none_iff, is_board_full_iff h]
  · rw [outcome_inProgress_iff, check_winner_eq_none_iff,
      is_board_full_eq_false_iff h]

/-- Witness for C6 at two concrete boards: the board with the first row
all `"O"` has outcome `Win "O"` (via the first line of the scan), and the
empty board is in progress. -/
theorem claim_C6_witness :
    outcome ["O", "O", "O", "", "", "", "", "", ""] = .win "O" ∧
    outcome reset = .inProgress := by
  constructor
  · refine ((claim_C6 ["O", "O", "O", "", "", "", "", "", ""]
      (by decide)).1.1 "O").mpr ?_
    refine ⟨(0, 1, 2), [],
      [(3, 4, 5), (6, 7, 8), (0, 3, 6), (1, 4, 7), (2, 5, 8),
       (0, 4, 8), (2, 4, 6)], rfl, ?_, by simp⟩
    refine ⟨by decide, by decide, by decide, by decide⟩
  · exact (claim_C6 reset (by decide)).2

/-- C5: the search has no side effect on the board: both `get_best_move`
and `minimax` return the board exactly as they found it, every
hypothetical placement being retracted. -/
theorem claim_C5 : ∀ (pick : List Nat → Nat) (b : Board),
    (get_best_move pick b).2 = b ∧
    ∀ (fuel depth : Nat) (mx : Bool), (minimax fuel b depth mx).2 = b :=
  fun pick b =>
    ⟨get_best_move_frame pick b,
     fun fuel depth mx => minimax_frame fuel b depth mx⟩

/-- C3: terminal scoring of the search: a board already won by `"O"`
scores `10 - depth`, a board won by `"X"` scores `depth - 10`, a full
board with no winner scores `0`; on a non-terminal board the children
are scored one ply deeper (`depth + 1`), so the depth argument counts
plies from the root of the search. -/
theorem claim_C3 : ∀ (b : Board) (fuel depth : Nat) (mx : Bool),
    (check_winner b = some "O" →
      minimax (fuel + 1) b depth mx = (.fin (10 - (depth : Int)), b)) ∧
    (check_winner b = some "X" →
      minimax (fuel + 1) b depth mx = (.fin ((depth : Int) - 10), b)) ∧
    (check_winner b = none → is_board_full b = true →
      minimax (fuel + 1) b depth mx = (.fin 0, b)) ∧
    (check_winner b = none → is_board_full b = false →
      (minimax (fuel + 1) b depth true).1 =
        (get_available_moves b).foldl
          (fun s m =>
            Score.max (minimax fuel (b.set m "O") (depth + 1) false).1 s)
          Score.negInf ∧
      (minimax (fuel + 1) b depth false).1 =
        (get_available_moves b).foldl
          (fun s m =>
            Score.min (minimax fuel (b.set m "X") (depth + 1) true).1 s)
          Score.posInf) := by
  intro b fuel depth mx
  refine ⟨?_, ?_, ?_, ?_⟩
  · intro h
    rw [minimax]
    simp [h]
  · intro h
    rw [minimax]
    simp [h]
  · intro h hf
    rw [minimax]
    simp [h, hf]
  · intro h hf
    constructor
    · rw [minimax_succ_max (by simp [h]) (by simp [h]) (by simp [hf])]
    · rw [minimax_succ_min (by simp [h]) (by simp [h]) (by simp [hf])]

/-- Witness for C3 at concrete boards: an `"O"`-won board at depth 3
scores `10 - 3 = 7`, an `"X"`-won board at depth 2 scores `2 - 10 = -8`,
a drawn full board scores `0`, and on a one-cell-open non-terminal board
the children are evaluated at depth 1. -/
theorem claim_C3_witness :
    minimax 1 ["O", "O", "O", "", "", "", "", "", ""] 3 true =
      (.fin 7, ["O", "O", "O", "", "", "", "", "", ""]) ∧
    minimax 1 ["X", "X", "X", "", "", "", "", "", ""] 2 false =
      (.fin (-8), ["X", "X", "X", "", "", "", "", "", ""]) ∧
    minimax 1 ["X", "O", "X", "X", "O", "O", "O", "X", "X"] 5 false =
      (.fin 0, ["X", "O", "X", "X", "O", "O", "O", "X", "X"]) ∧
    ((minimax 1 ["X", "O", "X", "X", "O", "O", "O", "X", ""] 0 true).1 =
      (get_available_moves ["X", "O", "X", "X", "O", "O", "O", "X", ""]).foldl
        (fun s m =>
          Score.max
            (minimax 0
              ((["X", "O", "X", "X", "O", "O", "O", "X", ""] : Board).set
                m "O") 1 false).1 s)
        Score.negInf ∧
     (minimax 1 ["X", "O", "X", "X", "O", "O", "O", "X", ""] 0 false).1 =
      (get_available_moves ["X", "O", "X", "X", "O", "O", "O", "X", ""]).foldl
        (fun s m =>
          Score.min
            (minimax 0
              ((["X", "O", "X", "X", "O", "O", "O", "X", ""] : Board).set
                m "X") 1 true).1 s)
        Score.posInf) :=
  ⟨(claim_C3 _ 0 3 true).1 (by decide),
   (claim_C3 _ 0 2 false).2.1 (by decide),
   (claim_C3 _ 0 5 false).2.2.1 (by decide) (by decide),
   (claim_C3 _ 0 0 true).2.2.2 (by decide) (by decide)⟩

/-- C2: with at least one available move, `get_best_move` returns an
available move whose root minimax score is maximal, and on ties it is
the first one found in ascending index order: every available move of
lower index scores strictly below it (the comparison is a strict
greater-than). -/
theorem claim_C2 : ∀ (pick : List Nat → Nat) (b : Board),
    b.length = 9 → get_available_moves b ≠ [] →
    ∃ m, (get_best_move pick b).1 = some m ∧
      m ∈ get_available_moves b ∧
      (∀ x ∈ get_available_moves b,
        Score.ble (rootScore b x) (rootScore b m) = true) ∧
      (∀ x ∈ get_available_moves b, x < m →
        (rootScore b x).blt (rootScore b m) = true) := by
  intro pick b hlen hne
  obtain ⟨pre, m, post, hsplit, hval, hpre, hpost⟩ := gbmVal_argmax hlen hne
  have hie : (get_available_moves b).isEmpty = false := by
    cases hh : (get_available_moves b).isEmpty
    · rfl
    · exact absurd (List.isEmpty_iff.mp hh) hne
  refine ⟨m, ?_, ?_, ?_, ?_⟩
  · rw [get_best_move_eq]
    simp [hie, hval]
  · rw [hsplit]
    exact List.mem_append.mpr (Or.inr (List.mem_cons_self _ _))
  · intro x hx
    rw [hsplit] at hx
    rcases List.mem_append.mp hx with hxp | hxc
    · exact Score.ble_of_blt (hpre x hxp)
    · rcases List.mem_cons.mp hxc with rfl | hxq
      · exact Score.ble_refl _
      · exact Score.ble_of_not_blt (hpost x hxq)
  · intro x hx hlt
    rw [hsplit] at hx
    rcases List.mem_append.mp hx with hxp | hxc
    · exact hpre x hxp
    · exfalso
      have hsorted := available_sorted b
      rw [hsplit] at hsorted
      have hmpost := (List.pairwise_append.mp hsorted).2.1
      have hmlt := (List.pairwise_cons.mp hmpost).1
      rcases List.mem_cons.mp hxc with rfl | hxq
      · omega
      · have := hmlt x hxq
        omega

/-- Witness for C2 on a board with a single empty cell: the unique
available move 8 is returned and trivially attains the maximum. -/
theorem claim_C2_witness :
    ∃ m, (get_best_move (fun l => l.headD 0)
        ["X", "O", "X", "X", "O", "O", "O", "X", ""]).1 = some m ∧
      m ∈ get_available_moves ["X", "O", "X", "X", "O", "O", "O", "X", ""] ∧
      (∀ x ∈ get_available_moves ["X", "O", "X", "X", "O", "O", "O", "X", ""],
        Score.ble
          (rootScore ["X", "O", "X", "X", "O", "O", "O", "X", ""] x)
          (rootScore ["X", "O", "X", "X", "O", "O", "O", "X", ""] m) =
          true) ∧
      (∀ x ∈ get_available_moves ["X", "O", "X", "X", "O", "O", "O", "X", ""],
        x < m →
        (rootScore ["X", "O", "X", "X", "O", "O", "O", "X", ""] x).blt
          (rootScore ["X", "O", "X", "X", "O", "O", "O", "X", ""] m) =
          true) :=
  claim_C2 (fun l => l.headD 0) ["X", "O", "X", "X", "O", "O", "O", "X", ""]
    (by decide) (by decide)

/-- C8: `get_best_move` answers `none` exactly when no cell is empty;
otherwise it returns one of the available moves, and the defensive
random fallback is unreachable: the answer does not depend on the random
choice function at all. -/
theorem claim_C8 : ∀ (pick pick2 : List Nat → Nat) (b : Board),
    b.length = 9 →
    ((get_best_move pick b).1 = none ↔ get_available_moves b = []) ∧
    (get_available_moves b ≠ [] →
      ∃ m, (get_best_move pick b).1 = some m ∧
        m ∈ get_available_moves b) ∧
    (get_best_move pick b).1 = (get_best_move pick2 b).1 := by
  intro pick pick2 b hlen
  by_cases hne : get_available_moves b = []
  · have hie : (get_available_moves b).isEmpty = true :=
      List.isEmpty_iff.mpr hne
    rw [get_best_move_eq, get_best_move_eq]
    simp [hie, hne]
  · obtain ⟨pre, m, post, hsplit, hval, hpre, hpost⟩ :=
      gbmVal_argmax hlen hne
    have hie : (get_available_moves b).isEmpty = false := by
      cases hh : (get_available_moves b).isEmpty
      · rfl
      · exact absurd (List.isEmpty_iff.mp hh) hne
    have hmem : m ∈ get_available_moves b := by
      rw [hsplit]
      exact List.mem_append.mpr (Or.inr (List.mem_cons_self _ _))
    refine ⟨?_, fun _ => ⟨m, ?_, hmem⟩, ?_⟩
    · rw [get_best_move_eq]
      simp [hie, hval, hne]
    · rw [get_best_move_eq]
      simp [hie, hval]
    · rw [get_best_move_eq, get_best_move_eq]
      simp [hie, hval]

/-- Witness for C8 on a board with a single empty cell, for two
different random choice functions. -/
theorem claim_C8_witness :
    ((get_best_move (fun l => l.headD 0)
        ["X", "O", "X", "X", "O", "O", "O", "X", ""]).1 = none ↔
      get_available_moves ["X", "O", "X", "X", "O", "O", "O", "X", ""] =
        []) ∧
    (get_available_moves ["X", "O", "X", "X", "O", "O", "O", "X", ""] ≠
        [] →
      ∃ m, (get_best_move (fun l => l.headD 0)
          ["X", "O", "X", "X", "O", "O", "O", "X", ""]).1 = some m ∧
        m ∈ get_available_moves
          ["X", "O", "X", "X", "O", "O", "O", "X", ""]) ∧
    (get_best_move (fun l => l.headD 0)
        ["X", "O", "X", "X", "O", "O", "O", "X", ""]).1 =
      (get_best_move (fun l => l.headD 1)
        ["X", "O", "X", "X", "O", "O", "O", "X", ""]).1 :=
  claim_C8 (fun l => l.headD 0) (fun l => l.headD 1)
    ["X", "O", "X", "X", "O", "O", "O", "X", ""] (by decide)

/-- C9: the search terminates without a depth limit: any two fuels
exceeding the number of empty cells give the same result (each recursive
call strictly decreases the number of empty cells), and the result is a
finite terminal score, so every leaf of the recursion is a terminal
state. -/
theorem claim_C9 : ∀ (b : Board) (d : Nat) (mx : Bool) (f1 f2 : Nat),
    b.length = 9 → emptyCount b < f1 → emptyCount b < f2 →
    minimax f1 b d mx = minimax f2 b d mx ∧
    ∃ z, (minimax f1 b d mx).1 = .fin z :=
  fun b d mx f1 f2 hlen h1 h2 =>
    ⟨minimax_fuel_irrel (emptyCount b) b d mx f1 f2 hlen rfl h1 h2,
     minimax_fin f1 b d mx hlen h1⟩

/-- Witness for C9 on a board with a single empty cell: fuels 2 and 5
agree and the score is finite. -/
theorem claim_C9_witness :
    minimax 2 ["X", "O", "X", "X", "O", "O", "O", "X", ""] 0 true =
      minimax 5 ["X", "O", "X", "X", "O", "O", "O", "X", ""] 0 true ∧
    ∃ z, (minimax 2 ["X", "O", "X", "X", "O", "O", "O", "X", ""] 0
      true).1 = .fin z :=
  claim_C9 ["X", "O", "X", "X", "O", "O", "O", "X", ""] 0 true 2 5
    (by decide) (by decide) (by decide)

/-- C1: playing the automated search for both sides from the empty board
(the automated player `"O"` moving second) runs the game to completion
with a Draw — in particular the outcome is never a loss for the
automated player: it is a Draw or a Win for `"O"`. -/
theorem claim_C1 : ∀ (pick : List Nat → Nat) (n : Nat), 9 ≤ n →
    outcome (playFrom pick n reset "X") = Outcome.draw ∨
    outcome (playFrom pick n reset "X") = Outcome.win "O" := by
  intro pick n hn
  obtain ⟨k, rfl⟩ : ∃ k, n = 9 + k := ⟨n - 9, by omega⟩
  left
  rw [play_result pick k]
  decide

/-- Witness for C1 at the smallest complete ply budget and a concrete
random-choice function. -/
theorem claim_C1_witness :
    outcome (playFrom (fun l => l.headD 0) 9 reset "X") = Outcome.draw ∨
    outcome (playFrom (fun l => l.headD 0) 9 reset "X") =
      Outcome.win "O" :=
  claim_C1 (fun l => l.headD 0) 9 (by decide)
